import Mathlib

/-!
# Binance-tracker: portfolio valuation pipeline

A shallow embedding of `src/services/binanceApi.js` (and the parts of
`src/components/Dashboard.js` that consume it), followed by theorems about it.

## Numbers

JavaScript numbers are IEEE-754 binary64 values.  Every finite binary64 value is an
integer multiple of `2^-1074`, so a finite number is represented by its sign and by the
natural number `k = |x| * 2^1074`.  Arithmetic computes the exact result and rounds it
to the nearest representable value, ties to even, overflowing to an infinity.
-/

namespace BinanceTracker

/-! ## IEEE-754 binary64 -/

/-- A JavaScript number: `fin neg k` is the finite value `(-1)^neg * k * 2^-1074`. -/
inductive F64 where
  | nan : F64
  | inf (neg : Bool) : F64
  | fin (neg : Bool) (k : Nat) : F64
  deriving DecidableEq, Repr

namespace F64

/-- Scale of the representation: `fin false scale` is the number `1`. -/
@[irreducible] def scale : Nat := 2 ^ 1074

/-- Scaled magnitudes from `2^2098` on (values from `2^1024` on) overflow. -/
@[irreducible] def overflowBound : Nat := 2 ^ 2098

/-- Bits of `n` counted by halving, with `fuel` halvings allowed. -/
def bitLengthAux : Nat → Nat → Nat → Nat
  | 0, _, acc => acc
  | fuel + 1, n, acc => if n = 0 then acc else bitLengthAux fuel (n / 2) (acc + 1)

/-- Number of binary digits of `n` (`0` for `0`): the least `b` with `n < 2^b`. -/
def bitLength (n : Nat) : Nat := bitLengthAux n n 0

/-- Round the non-negative rational `(n / d) * 2^-1074` to the nearest binary64 value,
ties to even, and give it the sign `neg`.  Below `2^53` scaled units the representable
values are the integers (subnormals and the first binades); above, the spacing is
`2^j` where `j` is the number of bits beyond 53. -/
def roundRat (neg : Bool) (n d : Nat) : F64 :=
  let j := bitLength (n / d) - 53
  let bigD := d * 2 ^ j
  let q := n / bigD
  let r := n % bigD
  let q1 := if bigD < 2 * r ∨ (2 * r = bigD ∧ q % 2 = 1) then q + 1 else q
  let k := q1 * 2 ^ j
  if overflowBound ≤ k then inf neg else fin neg k

/-- The number denoted by the natural number `n`. -/
def ofNat (n : Nat) : F64 := roundRat false (n * scale) 1

/-- The number `(-1)^neg * m * 10^e`, correctly rounded (numeric value of a decimal literal). -/
def ofDecimal (neg : Bool) (m : Nat) (e : Int) : F64 :=
  match e with
  | Int.ofNat p => roundRat neg (m * 10 ^ p * scale) 1
  | Int.negSucc p => roundRat neg (m * scale) (10 ^ (p + 1))

def zero : F64 := fin false 0
def one : F64 := fin false scale

def isNaN : F64 → Bool
  | nan => true
  | _ => false

/-- A finite double (neither NaN nor an infinity). -/
def isFinite : F64 → Bool
  | fin _ _ => true
  | _ => false

/-- JavaScript `ToBoolean` on a number: false for `NaN`, `+0` and `-0`. -/
def truthy : F64 → Bool
  | nan => false
  | inf _ => true
  | fin _ k => k != 0

/-- Signed scaled value of a finite number. -/
def signed (neg : Bool) (k : Nat) : Int := if neg then -(k : Int) else (k : Int)

/-- JavaScript `a < b`. -/
def lt : F64 → F64 → Bool
  | nan, _ => false
  | _, nan => false
  | inf na, inf nb => na && !nb
  | inf na, fin _ _ => na
  | fin _ _, inf nb => !nb
  | fin na ka, fin nb kb => decide (signed na ka < signed nb kb)

/-- JavaScript `a <= b`. -/
def le : F64 → F64 → Bool
  | nan, _ => false
  | _, nan => false
  | inf na, inf nb => na || !nb
  | inf na, fin _ _ => na
  | fin _ _, inf nb => !nb
  | fin na ka, fin nb kb => decide (signed na ka ≤ signed nb kb)

/-- JavaScript `a > b`. -/
def gt (a b : F64) : Bool := lt b a

/-- JavaScript `a >= b`. -/
def ge (a b : F64) : Bool := le b a

/-- JavaScript unary minus. -/
def neg : F64 → F64
  | nan => nan
  | inf s => inf (!s)
  | fin s k => fin (!s) k

/-- JavaScript `a + b`. -/
def add : F64 → F64 → F64
  | nan, _ => nan
  | _, nan => nan
  | inf na, inf nb => if na = nb then inf na else nan
  | inf na, fin _ _ => inf na
  | fin _ _, inf nb => inf nb
  | fin na ka, fin nb kb =>
    let s := signed na ka + signed nb kb
    if s = 0 then fin (na && nb) 0
    else roundRat (decide (s < 0)) s.natAbs 1

/-- JavaScript `a - b`. -/
def sub (a b : F64) : F64 := add a (neg b)

/-- JavaScript `a * b`. -/
def mul : F64 → F64 → F64
  | nan, _ => nan
  | _, nan => nan
  | inf na, inf nb => inf (xor na nb)
  | inf na, fin nb kb => if kb = 0 then nan else inf (xor na nb)
  | fin na ka, inf nb => if ka = 0 then nan else inf (xor na nb)
  | fin na ka, fin nb kb => roundRat (xor na nb) (ka * kb) scale

/-- JavaScript `Math.floor`. -/
def floor : F64 → F64
  | nan => nan
  | inf s => inf s
  | fin false k => fin false (k / scale * scale)
  | fin true k => fin true ((k + scale - 1) / scale * scale)

/-- JavaScript `Number.prototype.toString(16)`.  The digits are exact for integral
values, the only finite values it is applied to here (its argument is always a result
of `Math.floor`); a fractional part would be dropped by this definition. -/
def toStringRadix16 : F64 → String
  | nan => "NaN"
  | inf s => if s then "-Infinity" else "Infinity"
  | fin s k =>
    let digits := String.mk (Nat.toDigits 16 (k / scale))
    if s ∧ k ≠ 0 then "-" ++ digits else digits

end F64

/-! ## `parseFloat` -/

/-- ECMAScript `WhiteSpace` and `LineTerminator` code points, stripped by `parseFloat`. -/
def isJSWhiteSpace (c : Char) : Bool :=
  c.toNat ∈ [0x09, 0x0A, 0x0B, 0x0C, 0x0D, 0x20, 0xA0, 0x1680, 0x2028, 0x2029, 0x202F,
    0x205F, 0x3000, 0xFEFF] || (0x2000 ≤ c.toNat && c.toNat ≤ 0x200A)

def isDecimalDigit (c : Char) : Bool := 48 ≤ c.toNat && c.toNat ≤ 57

/-- Value of a sequence of decimal digits. -/
def digitsValue (ds : List Char) : Nat :=
  ds.foldl (fun acc c => acc * 10 + (c.toNat - 48)) 0

/-- Value of the `ExponentPart` at the head of `cs`, `0` when there is none (an `e` that
is not followed by an optionally signed digit sequence is not part of the literal). -/
def exponentValue (cs : List Char) : Int :=
  let signedDigits (r : List Char) : Int :=
    match r with
    | '-' :: r1 => -(digitsValue (r1.takeWhile isDecimalDigit) : Int)
    | '+' :: r1 => (digitsValue (r1.takeWhile isDecimalDigit) : Int)
    | r1 => (digitsValue (r1.takeWhile isDecimalDigit) : Int)
  match cs with
  | 'e' :: r => signedDigits r
  | 'E' :: r => signedDigits r
  | _ => 0

/-- JavaScript `parseFloat` on a string: skip leading white space, take the longest
prefix that is a `StrDecimalLiteral` and return its correctly rounded value, `NaN` when
there is no such prefix. -/
def parseFloat (s : String) : F64 :=
  let cs := s.toList.dropWhile isJSWhiteSpace
  let signAndRest : Bool × List Char :=
    match cs with
    | '-' :: r => (true, r)
    | '+' :: r => (false, r)
    | _ => (false, cs)
  let neg := signAndRest.1
  let body := signAndRest.2
  if "Infinity".toList.isPrefixOf body then F64.inf neg
  else
    let intDigits := body.takeWhile isDecimalDigit
    let afterInt := body.dropWhile isDecimalDigit
    let fracAndRest : List Char × List Char :=
      match afterInt with
      | '.' :: r => (r.takeWhile isDecimalDigit, r.dropWhile isDecimalDigit)
      | _ => ([], afterInt)
    let fracDigits := fracAndRest.1
    if intDigits.isEmpty && fracDigits.isEmpty then F64.nan
    else
      F64.ofDecimal neg (digitsValue (intDigits ++ fracDigits))
        (exponentValue fracAndRest.2 - (fracDigits.length : Int))

/-! ## Data model -/

/-- An error thrown by the JavaScript code: a `TypeError` raised by the language itself
(a property read on `null` or `undefined`), or `new Error(message)`. -/
inductive JSError where
  | typeError (message : String) : JSError
  | syntaxError (message : String) : JSError
  | error (message : String) : JSError
  deriving DecidableEq, Repr

/-- The `message` property of a thrown error. -/
def JSError.message : JSError → String
  | .typeError m => m
  | .syntaxError m => m
  | .error m => m

instance instDecidableEqExcept {ε α : Type} [DecidableEq ε] [DecidableEq α] :
    DecidableEq (Except ε α)
  | .ok a, .ok b =>
    if h : a = b then isTrue (by rw [h]) else isFalse (fun h2 => h (by cases h2; rfl))
  | .error a, .error b =>
    if h : a = b then isTrue (by rw [h]) else isFalse (fun h2 => h (by cases h2; rfl))
  | .ok _, .error _ => isFalse (fun h => by cases h)
  | .error _, .ok _ => isFalse (fun h => by cases h)

/-- One entry of `accountData.balances`, as the exchange sends it. -/
structure Balance where
  asset : String
  free : String
  locked : String
  deriving DecidableEq, Repr

/-- A JSON object received from the account endpoint: the account snapshot on success,
the exchange's error object on failure.  `balances = none` is an absent `balances`
field and an entry `none` of the list is a `null` entry; `msg = none` is an absent
`msg` field. -/
structure AccountData where
  balances : Option (List (Option Balance))
  msg : Option String := none
  deriving DecidableEq, Repr

/-- A price object: the own properties of the object, most recent binding first. -/
abbrev PriceMap := List (String × F64)

/-- The value of `prices[key]`, `none` for `undefined`.  Every key that
`processPortfolio` reads ends in `USDT`, `BUSD` or `BTC`, so none of them names a
member inherited from `Object.prototype`. -/
def PriceMap.get (prices : PriceMap) (key : String) : Option F64 := prices.lookup key

/-- Truthiness of `prices[key]`: `undefined`, `NaN` and `0` are falsy. -/
def PriceMap.truthyAt (prices : PriceMap) (key : String) : Bool :=
  match prices.get key with
  | some p => p.truthy
  | none => false

/-- The number read from `prices[key]` in arithmetic (`undefined` converts to `NaN`). -/
def PriceMap.num (prices : PriceMap) (key : String) : F64 :=
  match prices.get key with
  | some p => p
  | none => F64.nan

/-- Names of the members every object literal inherits from `Object.prototype`. -/
def objectPrototypeMembers : List String :=
  ["constructor", "hasOwnProperty", "isPrototypeOf", "propertyIsEnumerable",
   "toLocaleString", "toString", "valueOf", "__proto__", "__defineGetter__",
   "__defineSetter__", "__lookupGetter__", "__lookupSetter__"]

/-- The value stored in an asset's `color` field: a string, or a member inherited from
`Object.prototype` when the coin is named like one. -/
inductive ColorValue where
  | text (s : String) : ColorValue
  | inherited (member : String) : ColorValue
  deriving DecidableEq, Repr

/-- The value of `coinColors[coin]`, `none` for `undefined`; every value is truthy. -/
def coinColors (coin : String) : Option ColorValue :=
  if coin = "BTC" then some (.text "#F7931A")
  else if coin = "ETH" then some (.text "#627EEA")
  else if coin = "BNB" then some (.text "#F3BA2F")
  else if coin = "SOL" then some (.text "#00FFA3")
  else if coin = "XRP" then some (.text "#23292F")
  else if coin = "USDT" then some (.text "#26A17B")
  else if coin = "USDC" then some (.text "#2775CA")
  else if coin = "BUSD" then some (.text "#F0B90B")
  else if coin ∈ objectPrototypeMembers then some (.inherited coin)
  else none

/-- An element of the list `processPortfolio` returns. -/
structure Asset where
  coin : String
  amount : F64
  value : F64
  color : ColorValue
  priceSource : String
  deriving DecidableEq, Repr

/-! ## `processPortfolio` -/

/-- The color built from one result `r` of `Math.random()`. -/
def randomColor (r : F64) : String :=
  "#" ++ F64.toStringRadix16 (F64.floor (F64.mul r (F64.ofNat 16777215)))

/-- The sum `parseFloat(balance.free) + parseFloat(balance.locked)`, the `total` of the
callback. -/
def Balance.total (balance : Balance) : F64 :=
  F64.add (parseFloat balance.free) (parseFloat balance.locked)

/-- The block "Determine asset value in USDT" of the callback: the `value` and the
`priceSource` of a coin held in quantity `total`, `none` where the callback returns
`null` because the asset cannot be valued. -/
def resolveValue (prices : PriceMap) (coin : String) (total : F64) : Option (F64 × String) :=
  if coin = "USDT" then some (total, "Direct")
  else if prices.truthyAt (coin ++ "USDT") then
    some (F64.mul total (prices.num (coin ++ "USDT")), coin ++ "USDT")
  else if prices.truthyAt (coin ++ "BUSD") then
    some (F64.mul total (prices.num (coin ++ "BUSD")), coin ++ "BUSD")
  else if prices.truthyAt (coin ++ "BTC") && prices.truthyAt "BTCUSDT" then
    some (F64.mul (F64.mul total (prices.num (coin ++ "BTC"))) (prices.num "BTCUSDT"),
      coin ++ "BTC → BTCUSDT")
  else none

/-- The callback of `accountData.balances.map(...)`: the asset of one balance, `none`
for `null`.  `draws` is the sequence of results of `Math.random()` and `pos` the number
of results consumed so far; the new count is returned with the asset. -/
def processBalance (prices : PriceMap) (draws : Nat → F64) (balance : Balance) (pos : Nat) :
    Option Asset × Nat :=
  let coin := balance.asset
  let total := balance.total
  if F64.le total F64.zero then (none, pos)
  else
    match resolveValue prices coin total with
    | none => (none, pos)
    | some (value, priceSource) =>
      if F64.lt value F64.one then (none, pos)
      else
        match coinColors coin with
        | some c =>
          (some { coin := coin, amount := total, value := value, color := c,
                  priceSource := priceSource }, pos)
        | none =>
          (some { coin := coin, amount := total, value := value,
                  color := .text (randomColor (draws pos)), priceSource := priceSource },
           pos + 1)

/-- The call `accountData.balances.map(...)`: the callback runs on the entries in order;
reading `.asset` of a `null` entry throws a `TypeError`. -/
def mapBalances (prices : PriceMap) (draws : Nat → F64) :
    List (Option Balance) → Nat → Except JSError (List (Option Asset) × Nat)
  | [], pos => .ok ([], pos)
  | none :: _, _ => .error (.typeError "Cannot read properties of null (reading 'asset')")
  | some b :: rest, pos =>
    match mapBalances prices draws rest (processBalance prices draws b pos).2 with
    | .ok (slots, pos1) => .ok ((processBalance prices draws b pos).1 :: slots, pos1)
    | .error e => .error e

/-- The comparator `(a, b) => b.value - a.value`. -/
def compareByValue (a b : Asset) : F64 := F64.sub b.value a.value

/-- Whether a sort leaves `a` in front of `b` when `a` comes first: it does unless the
comparator yields a positive number (a `NaN` result counts as `0`). -/
def keepsOrder (a b : Asset) : Bool := !(F64.gt (compareByValue a b) F64.zero)

/-- The call `assets.sort((a, b) => b.value - a.value)`.  ECMAScript requires the sort
to be stable, which fixes the result whenever the comparator is a consistent ordering;
a stable merge sort stands for it. -/
def sortByValue (assets : List Asset) : List Asset := assets.mergeSort keepsOrder

/-- The function `processPortfolio(accountData, prices)`; `none` stands for an absent
(`null` or `undefined`) argument or field.  Returns the asset list and the number of
`Math.random()` results consumed. -/
def processPortfolio (accountData : Option AccountData) (prices : Option PriceMap)
    (draws : Nat → F64) (pos : Nat) : Except JSError (List Asset × Nat) :=
  match accountData, prices with
  | some ⟨some balances, _⟩, some priceMap =>
    match mapBalances priceMap draws balances pos with
    | .ok (slots, pos1) => .ok (sortByValue (slots.filterMap id), pos1)
    | .error e => .error e
  | _, _ => .ok ([], pos)

/-- The reduction `assets.reduce((sum, asset) => sum + asset.value, 0)` of `loadData`
in `Dashboard.js`, the `totalValue` of the published portfolio. -/
def totalValue (assets : List Asset) : F64 :=
  assets.foldl (fun sum asset => F64.add sum asset.value) F64.zero

/-! ## Network transport -/

/-- A request handed to `fetch`. -/
structure Request where
  method : String
  url : String
  headers : List (String × String)
  deriving DecidableEq, Repr

/-- A response of `fetch`.  `text` is the body and `json` the value `JSON.parse` gives
for it, `none` when the body is not valid JSON (`res.json()` then rejects). -/
structure Response (β : Type) where
  ok : Bool
  status : Nat
  text : String
  json : Option β

/-- The outcome of one `fetch`: a rejection or a response. -/
abbrev FetchResult (β : Type) := Except JSError (Response β)

/-- A JSON object of the price endpoint; an absent field reads as `undefined`. -/
structure Ticker where
  symbol : Option String
  price : Option String
  deriving DecidableEq, Repr

/-- The JSON value of a body of the price endpoint: `null`, one object, or an array of
objects and `null`s. -/
inductive PriceBody where
  | null : PriceBody
  | ticker (t : Ticker) : PriceBody
  | list (items : List (Option Ticker)) : PriceBody
  deriving DecidableEq, Repr

/-- The price endpoint as the client sees it: the outcome of the `i`-th request issued,
which may depend on the request. -/
abbrev PriceTransport := Nat → Request → FetchResult PriceBody

/-- The account endpoint as the client sees it; the JSON value `null` is `none`. -/
abbrev AccountTransport := Request → FetchResult (Option AccountData)

def BINANCE_API_URL : String := "/binance-api"

/-- The assignment `acc[key] = value` on a plain object.  Assigning a number to
`__proto__` leaves the object unchanged. -/
def PriceMap.set (acc : PriceMap) (key : String) (value : F64) : PriceMap :=
  if key = "__proto__" then acc else (key, value) :: acc

/-- The statement `acc[item.symbol] = parseFloat(item.price)` for a non-null object:
an absent symbol is the key `undefined`, an absent price parses to `NaN`. -/
def PriceMap.addTicker (acc : PriceMap) (t : Ticker) : PriceMap :=
  acc.set (t.symbol.getD "undefined")
    (match t.price with
     | some p => parseFloat p
     | none => F64.nan)

/-! ## `getCurrentPrices` and `getTopCoinPrices` -/

/-- The request `fetch(BINANCE_API_URL + "/api/v3/ticker/price?symbol=" + symbol)`. -/
def symbolRequest (symbol : String) : Request :=
  ⟨"GET", BINANCE_API_URL ++ "/api/v3/ticker/price?symbol=" ++ symbol, []⟩

/-- One element of the `symbols.map(...)` of `getCurrentPrices`: the `fetch` of a symbol
followed by its `.then`, which throws on a non-success status and otherwise parses the
body. -/
def fetchSymbolPrice (transport : PriceTransport) (i : Nat) (symbol : String) :
    Except JSError PriceBody :=
  match transport i (symbolRequest symbol) with
  | .error e => .error e
  | .ok res =>
    if !res.ok then
      .error (.error ("Failed to fetch price for " ++ symbol ++ ": " ++ toString res.status))
    else
      match res.json with
      | none => .error (.syntaxError "Unexpected token in JSON")
      | some body => .ok body

/-- The lookups of `symbols`, the first one being request number `start`. -/
def fetchSymbolPrices (transport : PriceTransport) : Nat → List String →
    List (Except JSError PriceBody)
  | _, [] => []
  | start, symbol :: rest =>
    fetchSymbolPrice transport start symbol :: fetchSymbolPrices transport (start + 1) rest

/-- The call `Promise.all(promises)`: the values when all fulfil, otherwise a rejection
(of those that reject, the one first in the list stands for the one first in time). -/
def promiseAll {α : Type} : List (Except JSError α) → Except JSError (List α)
  | [] => .ok []
  | .error e :: _ => .error e
  | .ok a :: rest =>
    match promiseAll rest with
    | .ok as => .ok (a :: as)
    | .error e => .error e

/-- The reduction of the responses of the symbol lookups into a price object; reading
`.symbol` of `null` throws, and an array has neither a `symbol` nor a `price`. -/
def reduceResponses : List PriceBody → PriceMap → Except JSError PriceMap
  | [], acc => .ok acc
  | .null :: _, _ => .error (.typeError "Cannot read properties of null (reading 'symbol')")
  | .ticker t :: rest, acc => reduceResponses rest (acc.addTicker t)
  | .list _ :: rest, acc => reduceResponses rest (acc.addTicker ⟨none, none⟩)

/-- The reduction of the full price list into a price object. -/
def reduceTickers : List (Option Ticker) → PriceMap → Except JSError PriceMap
  | [], acc => .ok acc
  | none :: _, _ => .error (.typeError "Cannot read properties of null (reading 'symbol')")
  | some t :: rest, acc => reduceTickers rest (acc.addTicker t)

/-- The function `getCurrentPrices(symbols)`; `symbols` is `[]` when the argument is
omitted, and `start` is the number of the first request it issues. -/
def getCurrentPrices (transport : PriceTransport) (start : Nat) (symbols : List String) :
    Except JSError PriceMap :=
  if symbols.length > 0 then
    match promiseAll (fetchSymbolPrices transport start symbols) with
    | .error e => .error e
    | .ok responses => reduceResponses responses []
  else
    match transport start ⟨"GET", BINANCE_API_URL ++ "/api/v3/ticker/price", []⟩ with
    | .error e => .error e
    | .ok response =>
      if !response.ok then
        .error (.error ("Failed to fetch prices: " ++ toString response.status))
      else
        match response.json with
        | none => .error (.syntaxError "Unexpected token in JSON")
        | some .null => .error (.typeError "Cannot read properties of null (reading 'reduce')")
        | some (.ticker _) => .error (.typeError "data.reduce is not a function")
        | some (.list items) => reduceTickers items []

def topCoinSymbols : List String := ["BTCUSDT", "ETHUSDT", "SOLUSDT", "XRPUSDT", "BNBUSDT"]

/-- The function `getTopCoinPrices()`. -/
def getTopCoinPrices (transport : PriceTransport) (start : Nat) : Except JSError PriceMap :=
  match getCurrentPrices transport start topCoinSymbols with
  | .ok prices => .ok prices
  | .error _ => .ok []

/-! ## Signing and the account call -/

structure Credentials where
  apiKey : String
  apiSecret : String
  deriving DecidableEq, Repr

/-- The MAC primitive behind `window.crypto.subtle` (`importKey` then `sign`): from the
key bytes and the message bytes to the digest bytes, or a thrown error. -/
abbrev Mac := List Nat → List Nat → Except JSError (List Nat)

/-- The bytes `new TextEncoder().encode(s)` (UTF-8). -/
def utf8Encode (s : String) : List Nat := s.toUTF8.toList.map (fun b => b.toNat)

/-- The call `s.padStart(2, '0')`. -/
def padStart2 (s : String) : String :=
  if s.length < 2 then String.mk (List.replicate (2 - s.length) '0') ++ s else s

/-- The callback `b => b.toString(16).padStart(2, '0')` on a byte. -/
def byteToHex (b : Nat) : String := padStart2 (String.mk (Nat.toDigits 16 b))

/-- The expression `Array.from(new Uint8Array(signature)).map(...).join('')`. -/
def hexEncode (bytes : List Nat) : String := String.join (bytes.map byteToHex)

/-- The function `createSignature(queryString, secret)` of `AuthContext.js`. -/
def createSignature (mac : Mac) (queryString secret : String) : Except JSError String :=
  match mac (utf8Encode secret) (utf8Encode queryString) with
  | .ok signature => .ok (hexEncode signature)
  | .error e => .error (.error ("Failed to create API signature: " ++ e.message))

/-- The `createSignature` argument of `getAccountInfo`. -/
abbrev Signer := String → String → Except JSError String

/-- The query string built from `Date.now()`. -/
def timestampQuery (now : Nat) : String := "timestamp=" ++ toString now

/-- The request of the account call: the `fetch` arguments of `getAccountInfo` (and of
`login`, which spells the same URL out). -/
def accountRequest (queryString signature apiKey : String) : Request :=
  { method := "GET"
    url := BINANCE_API_URL ++ "/api/v3/account?" ++ queryString ++ "&signature=" ++ signature
    headers := [("X-MBX-APIKEY", apiKey)] }

/-- The message built from a non-success response, starting from `initial`: the `msg`
of the parsed body when it has a truthy one, the raw text appended when the body is not
valid JSON and not empty. -/
def errorMessageOf (initial : String) (response : Response (Option AccountData)) : String :=
  match response.json with
  | some (some errorData) =>
    match errorData.msg with
    | some msg => if msg ≠ "" then msg else initial
    | none => initial
  | some none => initial
  | none => if response.text ≠ "" then initial ++ ": " ++ response.text else initial

/-- The function `getAccountInfo(credentials, createSignature)`; `now` is `Date.now()`. -/
def getAccountInfo (transport : AccountTransport) (now : Nat) (credentials : Credentials)
    (sign : Signer) : Except JSError (Option AccountData) :=
  let queryString := timestampQuery now
  match sign queryString credentials.apiSecret with
  | .error e => .error e
  | .ok signature =>
    match transport (accountRequest queryString signature credentials.apiKey) with
    | .error e => .error e
    | .ok response =>
      if !response.ok then
        .error (.error (errorMessageOf
          ("Failed to fetch account information (" ++ toString response.status ++ ")") response))
      else
        match response.json with
        | none => .error (.syntaxError "Unexpected token in JSON")
        | some accountData => .ok accountData

/-! ## `AuthContext`: the session -/

/-- The state held by `AuthProvider`, with the contents of `localStorage`. -/
structure AuthState where
  isAuthenticated : Bool
  credentials : Credentials
  storage : List (String × String)
  deriving DecidableEq, Repr

/-- The call `localStorage.setItem(key, value)`. -/
def storageSet (storage : List (String × String)) (key value : String) :
    List (String × String) :=
  (key, value) :: storage.filter (fun kv => kv.1 != key)

/-- The call `localStorage.removeItem(key)`. -/
def storageRemove (storage : List (String × String)) (key : String) : List (String × String) :=
  storage.filter (fun kv => kv.1 != key)

/-- One run of `login`: what it returns or throws, the state it leaves, and the calls it
made to the signer (message and secret) and to `fetch`. -/
structure LoginRun where
  result : Except JSError Bool
  state : AuthState
  signed : List (String × String)
  fetched : List Request
  deriving DecidableEq, Repr

/-- The function `login(apiKey, apiSecret, remember)` of `AuthContext.js`. -/
def login (transport : AccountTransport) (now : Nat) (sign : Signer) (st : AuthState)
    (apiKey apiSecret : String) (remember : Bool) : LoginRun :=
  let queryString := timestampQuery now
  match sign queryString apiSecret with
  | .error e => ⟨.error e, st, [(queryString, apiSecret)], []⟩
  | .ok signature =>
    let request := accountRequest queryString signature apiKey
    match transport request with
    | .error e => ⟨.error e, st, [(queryString, apiSecret)], [request]⟩
    | .ok response =>
      if !response.ok then
        ⟨.error (.error (errorMessageOf ("API Error (" ++ toString response.status ++ ")")
            response)), st, [(queryString, apiSecret)], [request]⟩
      else
        let stored :=
          if remember then
            storageSet (storageSet st.storage "binance_api_key" apiKey)
              "binance_api_secret" apiSecret
          else st.storage
        ⟨.ok true, ⟨true, ⟨apiKey, apiSecret⟩, stored⟩, [(queryString, apiSecret)], [request]⟩

/-- The function `logout()` of `AuthContext.js`. -/
def logout (st : AuthState) : AuthState :=
  ⟨false, ⟨"", ""⟩,
    storageRemove (storageRemove st.storage "binance_api_key") "binance_api_secret"⟩

/-! ## `Login.js`: the form -/

/-- The call `s.trim()`. -/
def jsTrim (s : String) : String :=
  String.mk ((s.toList.dropWhile isJSWhiteSpace).reverse.dropWhile isJSWhiteSpace).reverse

/-- One run of `handleSubmit`: the error text shown, the route navigated to, and the run
of `login` when it was called. -/
structure SubmitRun where
  error : String
  navigatedTo : Option String
  loginRun : Option LoginRun
  deriving DecidableEq, Repr

/-- The function `handleSubmit` of `Login.js` on the form fields `apiKey`, `apiSecret`
and `remember`. -/
def handleSubmit (transport : AccountTransport) (now : Nat) (sign : Signer) (st : AuthState)
    (apiKey apiSecret : String) (remember : Bool) : SubmitRun :=
  if jsTrim apiKey = "" ∨ jsTrim apiSecret = "" then
    ⟨"API Key and Secret are required", none, none⟩
  else
    let run := login transport now sign st apiKey apiSecret remember
    match run.result with
    | .ok _ => ⟨"", some "/dashboard", some run⟩
    | .error err =>
      ⟨if err.message ≠ "" then err.message else "Failed to authenticate with Binance",
        none, some run⟩

/-- The session state after `handleSubmit`. -/
def SubmitRun.authState (st : AuthState) (run : SubmitRun) : AuthState :=
  match run.loginRun with
  | some r => r.state
  | none => st

/-! ## `Dashboard.js`: the refresh -/

/-- The `portfolio` state; the initial `{ assets: [] }` has no `totalValue`. -/
structure Portfolio where
  assets : List Asset
  totalValue : Option F64
  deriving DecidableEq, Repr

/-- The state of the `Dashboard` component. -/
structure DashboardState where
  loading : Bool
  refreshing : Bool
  error : String
  portfolio : Portfolio
  topPrices : PriceMap
  lastUpdated : Option Nat
  deriving DecidableEq, Repr

/-- The state of `Dashboard` at its first render. -/
def DashboardState.initial : DashboardState :=
  ⟨true, false, "", ⟨[], none⟩, [], none⟩

/-- The block of `loadData` run when credentials are present: full prices (falling back
to the `topPrices` of the closure), account data, valuation.  Returns the state after
it and the number of `Math.random()` results consumed. -/
def loadAccount (priceTransport : PriceTransport) (accountTransport : AccountTransport)
    (now : Nat) (sign : Signer) (draws : Nat → F64) (pos : Nat) (credentials : Credentials)
    (topPrices : PriceMap) (st : DashboardState) : DashboardState × Nat :=
  let prices : PriceMap :=
    match getCurrentPrices priceTransport 5 [] with
    | .ok all => all
    | .error _ => topPrices
  match getAccountInfo accountTransport now credentials sign with
  | .error accountError =>
    ({ st with error := "Failed to load account data: " ++ accountError.message
               portfolio := ⟨[], none⟩ }, pos)
  | .ok accountData =>
    match processPortfolio accountData (some prices) draws pos with
    | .error accountError =>
      ({ st with error := "Failed to load account data: " ++ accountError.message
                 portfolio := ⟨[], none⟩ }, pos)
    | .ok (assets, pos1) =>
      ({ st with portfolio := ⟨assets, some (totalValue assets)⟩
                 lastUpdated := some now }, pos1)

/-- The function `loadData(isRefreshing)` of `Dashboard.js`, run from the state `st` of
the render that created it: `st.topPrices` is the `topPrices` its closure holds.  The
top-coin lookups are requests `0` to `4`, the full price list is request `5`. -/
def loadData (priceTransport : PriceTransport) (accountTransport : AccountTransport)
    (now : Nat) (sign : Signer) (draws : Nat → F64) (pos : Nat) (credentials : Credentials)
    (st : DashboardState) (isRefreshing : Bool) : DashboardState × Nat :=
  let st1 : DashboardState :=
    if isRefreshing then { st with refreshing := true } else { st with loading := true }
  let st2 : DashboardState := { st1 with error := "" }
  let st3 : DashboardState :=
    match getTopCoinPrices priceTransport 0 with
    | .ok topCoins => { st2 with topPrices := topCoins }
    | .error _ =>
      { st2 with error := "Could not load current prices. Please check your connection." }
  let after : DashboardState × Nat :=
    if credentials.apiKey ≠ "" ∧ credentials.apiSecret ≠ "" then
      loadAccount priceTransport accountTransport now sign draws pos credentials
        st.topPrices st3
    else (st3, pos)
  ({ after.1 with loading := false, refreshing := false }, after.2)

/-! ## `PortfolioChart.js` -/

/-- An entry of the pie chart. -/
structure ChartEntry where
  name : String
  value : F64
  color : ColorValue
  deriving DecidableEq, Repr

/-- The `pieData` of `PortfolioChart`. -/
def pieData (assets : List Asset) : List ChartEntry :=
  assets.map (fun asset => ⟨asset.coin, asset.value, asset.color⟩)

/-- The `chartData` of `PortfolioChart`. -/
def chartData (assets : List Asset) (darkMode : Bool) : List ChartEntry :=
  if (pieData assets).length > 5 then
    (pieData assets).take 4 ++
      [⟨"Others",
        ((pieData assets).drop 4).foldl (fun sum item => F64.add sum item.value) F64.zero,
        .text (if darkMode then "#6B7280" else "#9CA3AF")⟩]
  else pieData assets

/-! ## Statements about one balance record -/

/-- The snapshot whose `balances` are the records `pre`, then `b`, then `post`. -/
def snapshotAround (pre : List Balance) (b : Balance) (post : List Balance) : AccountData :=
  { balances := some (pre.map some ++ some b :: post.map some) }

/-- The record `b`, placed between the records `pre` and `post`, yields `slot`: the call
returns, the entry of `b` in the result of `.map(...)` is `slot` (an asset or `null`),
and the list returned is the sorted list of the entries that are not `null`. -/
def RecordYields (prices : PriceMap) (draws : Nat → F64) (pos : Nat)
    (pre : List Balance) (b : Balance) (post : List Balance) (slot : Option Asset) : Prop :=
  ∃ slots pos1,
    mapBalances prices draws (pre.map some ++ some b :: post.map some) pos = .ok (slots, pos1) ∧
    slots.length = pre.length + 1 + post.length ∧
    slots[pre.length]? = some slot ∧
    processPortfolio (some (snapshotAround pre b post)) (some prices) draws pos =
      .ok (sortByValue (slots.filterMap id), pos1)

/-! ## Inputs without `NaN`

Neither `processPortfolio` nor its callers validate their input.  The two conditions
under which no `NaN` can reach an asset are that every total `free + locked` is a number
and that the `BTCUSDT` price, the second factor of the bridge, is not an infinity. -/

/-- The `BTCUSDT` entry of the map, when there is one, is not `Infinity` or `-Infinity`. -/
def PriceMap.bridgeNotInfinite (prices : PriceMap) : Bool :=
  match prices.get "BTCUSDT" with
  | some (.inf _) => false
  | _ => true

/-- JavaScript `a === b` on numbers. -/
def F64.eq : F64 → F64 → Bool
  | .nan, _ => false
  | _, .nan => false
  | .inf na, .inf nb => na == nb
  | .inf _, .fin _ _ => false
  | .fin _ _, .inf _ => false
  | .fin na ka, .fin nb kb => decide (F64.signed na ka = F64.signed nb kb)

/-- The order `<` extended to `NaN`, which is put below every number; on numbers it is
`<` itself. -/
def F64.ltTotal : F64 → F64 → Bool
  | _, .nan => false
  | .nan, _ => true
  | x, y => F64.lt x y

/-- The exact (unrounded) sum of finite numbers, in units of `2^-1074`. -/
def exactSum (vs : List F64) : Int :=
  (vs.map (fun v => match v with
    | .fin neg k => F64.signed neg k
    | _ => 0)).sum

/-- The left-to-right floating-point sum `vs.reduce((sum, v) => sum + v, 0)`. -/
def floatSum (vs : List F64) : F64 := vs.foldl F64.add F64.zero

/-- What of an asset does not come from `Math.random()`: every field but the color, and
the color the fixed lookup gives to the coin (`none` for a coin outside the lookup). -/
def Asset.fixedPart (a : Asset) : String × F64 × F64 × String × Option ColorValue :=
  (a.coin, a.amount, a.value, a.priceSource, coinColors a.coin)

/-! # Theorems

## Facts about numbers -/

namespace F64

theorem scale_pos : 0 < scale := by unfold scale; positivity

theorem overflowBound_pos : 0 < overflowBound := by unfold overflowBound; positivity

theorem bitLengthAux_zero (fuel acc : Nat) : bitLengthAux fuel 0 acc = acc := by
  cases fuel <;> simp [bitLengthAux]

theorem bitLength_zero : bitLength 0 = 0 := by simp [bitLength, bitLengthAux]

/-- Rounding an exact zero gives the zero of the requested sign. -/
theorem roundRat_zero (s : Bool) (d : Nat) : roundRat s 0 d = fin s 0 := by
  have h : ¬ overflowBound ≤ 0 := Nat.not_le.mpr overflowBound_pos
  simp [roundRat, bitLength_zero, h]

/-- Rounding gives an infinity or a finite number, of the requested sign. -/
theorem roundRat_cases (s : Bool) (n d : Nat) :
    roundRat s n d = inf s ∨ ∃ k, roundRat s n d = fin s k := by
  unfold roundRat
  simp only
  split_ifs
  · exact Or.inl rfl
  · exact Or.inr ⟨_, rfl⟩
  · exact Or.inl rfl
  · exact Or.inr ⟨_, rfl⟩

/-- Rounding never produces `NaN`. -/
theorem roundRat_isNaN (s : Bool) (n d : Nat) : (roundRat s n d).isNaN = false := by
  rcases roundRat_cases s n d with h | ⟨k, h⟩ <;> rw [h] <;> rfl

theorem ge_one_lt_one {v : F64} (h : ge v one = true) : lt v one = false := by
  cases v with
  | nan => rfl
  | inf s => cases s <;> simp_all [ge, le, lt, one]
  | fin s k =>
    simp only [ge, le, one, decide_eq_true_eq] at h
    simp only [lt, one, decide_eq_false_iff_not]
    omega

theorem gt_zero_le_zero {t : F64} (h : gt t zero = true) : le t zero = false := by
  cases t with
  | nan => rfl
  | inf s => cases s <;> simp_all [gt, le, lt, zero]
  | fin s k =>
    simp only [gt, lt, zero, decide_eq_true_eq] at h
    simp only [le, zero, decide_eq_false_iff_not]
    omega

theorem ge_one_of_not_lt {v : F64} (hn : v.isNaN = false) (h : lt v one = false) :
    ge v one = true := by
  cases v with
  | nan => simp [isNaN] at hn
  | inf s => cases s <;> simp_all [ge, le, lt, one]
  | fin s k =>
    simp only [lt, one, decide_eq_false_iff_not] at h
    simp only [ge, le, one, decide_eq_true_eq]
    omega

theorem gt_zero_of_not_le {t : F64} (hn : t.isNaN = false) (h : le t zero = false) :
    gt t zero = true := by
  cases t with
  | nan => simp [isNaN] at hn
  | inf s => cases s <;> simp_all [gt, le, lt, zero]
  | fin s k =>
    simp only [le, zero, decide_eq_false_iff_not] at h
    simp only [gt, lt, zero, decide_eq_true_eq]
    omega

theorem gt_zero_not_nan {t : F64} (h : gt t zero = true) : t.isNaN = false := by
  cases t <;> simp_all [gt, lt, zero, isNaN]

theorem ge_one_not_nan {v : F64} (h : ge v one = true) : v.isNaN = false := by
  cases v <;> simp_all [ge, le, one, isNaN]

/-- A number that is at least `1` is truthy. -/
theorem ge_one_truthy {v : F64} (h : ge v one = true) : v.truthy = true := by
  cases v with
  | nan => simp [ge, le, one] at h
  | inf s => rfl
  | fin s k =>
    simp only [ge, le, one, decide_eq_true_eq, signed] at h
    have hs := scale_pos
    simp only [truthy, bne_iff_ne, ne_eq]
    intro hk
    subst hk
    cases s <;> simp at h <;> omega

/-- A product with a falsy factor (`NaN` or a zero) is falsy. -/
theorem mul_falsy {a b : F64} (h : a.truthy = false ∨ b.truthy = false) :
    (mul a b).truthy = false := by
  cases a with
  | nan => cases b <;> rfl
  | inf sa =>
    cases b with
    | nan => rfl
    | inf sb => simp [truthy] at h
    | fin sb kb =>
      rcases h with h | h
      · simp [truthy] at h
      · simp only [truthy, bne_eq_false_iff_eq] at h
        simp [mul, h, truthy]
  | fin sa ka =>
    cases b with
    | nan => rfl
    | inf sb =>
      rcases h with h | h
      · simp only [truthy, bne_eq_false_iff_eq] at h
        simp [mul, h, truthy]
      · simp [truthy] at h
    | fin sb kb =>
      have hz : ka * kb = 0 := by
        rcases h with h | h <;> simp only [truthy, bne_eq_false_iff_eq] at h <;> simp [h]
      simp [mul, hz, roundRat_zero, truthy]

/-- When a product is at least `1`, both factors are truthy. -/
theorem truthy_of_mul_ge_one {a b : F64} (h : ge (mul a b) one = true) :
    a.truthy = true ∧ b.truthy = true := by
  have ht := ge_one_truthy h
  constructor
  · by_contra hc
    have := mul_falsy (a := a) (b := b) (Or.inl (by simpa using hc))
    simp [this] at ht
  · by_contra hc
    have := mul_falsy (a := a) (b := b) (Or.inr (by simpa using hc))
    simp [this] at ht

end F64

/-! ## The structure of `processPortfolio` -/

theorem mapBalances_append (prices : PriceMap) (draws : Nat → F64)
    (xs ys : List (Option Balance)) (pos : Nat) :
    mapBalances prices draws (xs ++ ys) pos =
      match mapBalances prices draws xs pos with
      | .ok (s1, p1) =>
        match mapBalances prices draws ys p1 with
        | .ok (s2, p2) => .ok (s1 ++ s2, p2)
        | .error e => .error e
      | .error e => .error e := by
  induction xs generalizing pos with
  | nil =>
    simp only [List.nil_append, mapBalances]
    cases h : mapBalances prices draws ys pos with
    | error e => rfl
    | ok r => rfl
  | cons x xs ih =>
    cases x with
    | none => simp [mapBalances]
    | some b =>
      have hstep : mapBalances prices draws (some b :: xs ++ ys) pos =
          match mapBalances prices draws (xs ++ ys) (processBalance prices draws b pos).2 with
          | .ok (slots, pos1) => .ok ((processBalance prices draws b pos).1 :: slots, pos1)
          | .error e => .error e := rfl
      rw [hstep, ih]
      simp only [mapBalances]
      cases h1 : mapBalances prices draws xs (processBalance prices draws b pos).2 with
      | error e => rfl
      | ok r1 =>
        cases h2 : mapBalances prices draws ys r1.2 with
        | error e => simp [h2]
        | ok r2 => simp [h2]

/-- On records that are all present the `.map(...)` returns one entry per record. -/
theorem mapBalances_typed (prices : PriceMap) (draws : Nat → F64) (bs : List Balance)
    (pos : Nat) :
    ∃ slots pos1, mapBalances prices draws (bs.map some) pos = .ok (slots, pos1) ∧
      slots.length = bs.length := by
  induction bs generalizing pos with
  | nil => exact ⟨[], pos, rfl, rfl⟩
  | cons b bs ih =>
    obtain ⟨slots, pos1, h, hl⟩ := ih (processBalance prices draws b pos).2
    refine ⟨(processBalance prices draws b pos).1 :: slots, pos1, ?_, by simp [hl]⟩
    simp [mapBalances, h]

/-- Every record yields what the callback returns for it, at some count of consumed
random draws. -/
theorem recordYields_callback (prices : PriceMap) (draws : Nat → F64) (pos : Nat)
    (pre : List Balance) (b : Balance) (post : List Balance) :
    ∃ p, RecordYields prices draws pos pre b post (processBalance prices draws b p).1 := by
  obtain ⟨s1, p1, h1, hl1⟩ := mapBalances_typed prices draws pre pos
  obtain ⟨s2, p2, h2, hl2⟩ :=
    mapBalances_typed prices draws post (processBalance prices draws b p1).2
  have hmap : mapBalances prices draws (pre.map some ++ some b :: post.map some) pos =
      .ok (s1 ++ (processBalance prices draws b p1).1 :: s2, p2) := by
    rw [mapBalances_append, h1]
    simp [mapBalances, h2]
  refine ⟨p1, s1 ++ (processBalance prices draws b p1).1 :: s2, p2, hmap, ?_, ?_, ?_⟩
  · simp [hl1, hl2]; omega
  · rw [← hl1, List.getElem?_append_right (Nat.le_refl _)]; simp
  · simp [processPortfolio, snapshotAround, hmap]

/-- If the callback returns `slot` whatever the count of consumed draws, the record
yields `slot`. -/
theorem recordYields_of_forall (prices : PriceMap) (draws : Nat → F64) (pos : Nat)
    (pre : List Balance) (b : Balance) (post : List Balance) (P : Option Asset → Prop)
    (h : ∀ p, P (processBalance prices draws b p).1) :
    ∃ slot, P slot ∧ RecordYields prices draws pos pre b post slot := by
  obtain ⟨p, hp⟩ := recordYields_callback prices draws pos pre b post
  exact ⟨_, h p, hp⟩

/-- An asset a record yields is an element of the list returned. -/
theorem mem_of_recordYields {prices : PriceMap} {draws : Nat → F64} {pos : Nat}
    {pre : List Balance} {b : Balance} {post : List Balance} {a : Asset}
    (h : RecordYields prices draws pos pre b post (some a)) :
    ∃ out pos1, processPortfolio (some (snapshotAround pre b post)) (some prices) draws pos =
      .ok (out, pos1) ∧ a ∈ out := by
  obtain ⟨slots, pos1, _, _, hs, hp⟩ := h
  refine ⟨_, pos1, hp, ?_⟩
  unfold sortByValue
  rw [List.mem_mergeSort, List.mem_filterMap]
  exact ⟨some a, List.getElem?_mem hs, rfl⟩

/-! ## The callback on one record -/

/-- Truthiness of an entry that is present is the truthiness of its price. -/
theorem truthyAt_of_get {prices : PriceMap} {key : String} {p : F64}
    (h : prices.get key = some p) : prices.truthyAt key = p.truthy := by
  simp [PriceMap.truthyAt, h]

theorem num_of_get {prices : PriceMap} {key : String} {p : F64}
    (h : prices.get key = some p) : prices.num key = p := by
  simp [PriceMap.num, h]

theorem truthyAt_of_get_none {prices : PriceMap} {key : String}
    (h : prices.get key = none) : prices.truthyAt key = false := by
  simp [PriceMap.truthyAt, h]

/-- A record that is held, valued and not dust gives an asset with the resolved value. -/
theorem processBalance_some (prices : PriceMap) (draws : Nat → F64) (b : Balance) (p : Nat)
    {v : F64} {src : String} (ht : F64.le b.total F64.zero = false)
    (hr : resolveValue prices b.asset b.total = some (v, src))
    (hv : F64.lt v F64.one = false) :
    ∃ c, (processBalance prices draws b p).1 =
      some { coin := b.asset, amount := b.total, value := v, color := c, priceSource := src } := by
  unfold processBalance
  simp only [ht, hr, hv]
  cases coinColors b.asset with
  | none => exact ⟨_, rfl⟩
  | some c => exact ⟨c, rfl⟩

/-- Whatever asset the callback returns has the amount `total` and the resolved value,
which is not below `1`. -/
theorem processBalance_eq_some (prices : PriceMap) (draws : Nat → F64) (b : Balance) (p : Nat)
    {a : Asset} (h : (processBalance prices draws b p).1 = some a) :
    F64.le b.total F64.zero = false ∧ F64.lt a.value F64.one = false ∧
      resolveValue prices b.asset b.total = some (a.value, a.priceSource) ∧
      a.coin = b.asset ∧ a.amount = b.total ∧
      (∀ c, coinColors b.asset = some c → a.color = c) := by
  unfold processBalance at h
  simp only at h
  cases ht : F64.le b.total F64.zero with
  | true => simp [ht] at h
  | false =>
    simp only [ht] at h
    cases hr : resolveValue prices b.asset b.total with
    | none => simp [hr] at h
    | some r =>
      obtain ⟨v, src⟩ := r
      simp only [hr] at h
      cases hv : F64.lt v F64.one with
      | true => simp [hv] at h
      | false =>
        simp only [hv] at h
        cases hc : coinColors b.asset with
        | none =>
          simp only [hc, Bool.false_eq_true, if_false, Option.some.injEq] at h
          subst h
          simp [hv]
        | some c =>
          simp only [hc, Bool.false_eq_true, if_false, Option.some.injEq] at h
          subst h
          simp [hv]

/-- A record not held, not valued, or valued below `1` gives `null`. -/
theorem processBalance_none (prices : PriceMap) (draws : Nat → F64) (b : Balance) (p : Nat)
    (h : F64.le b.total F64.zero = true ∨ resolveValue prices b.asset b.total = none ∨
      ∃ v src, resolveValue prices b.asset b.total = some (v, src) ∧ F64.lt v F64.one = true) :
    (processBalance prices draws b p).1 = none := by
  unfold processBalance
  rcases h with h | h | ⟨v, src, h, hv⟩
  · simp [h]
  · simp only [h]; split <;> rfl
  · simp only [h, hv]; split <;> rfl

/-! ## Price resolution -/

/-- C1: for a record whose coin is not `USDT` and whose total is positive, a
`<coin>USDT` price `p` gives the one asset of amount `total`, value `total * p` and
source `<coin>USDT`, whatever other pairs exist; without a `<coin>USDT` entry, a
`<coin>BUSD` price `q` gives value `total * q` and source `<coin>BUSD`; in both cases
provided the value is at least `1`. -/
theorem processPortfolio_price_priority (prices : PriceMap) (draws : Nat → F64) (pos : Nat)
    (pre : List Balance) (b : Balance) (post : List Balance)
    (hcoin : b.asset ≠ "USDT") (htotal : F64.gt b.total F64.zero = true) :
    (∀ p, prices.get (b.asset ++ "USDT") = some p →
      F64.ge (F64.mul b.total p) F64.one = true →
      ∃ c, RecordYields prices draws pos pre b post
        (some { coin := b.asset, amount := b.total, value := F64.mul b.total p, color := c,
                priceSource := b.asset ++ "USDT" })) ∧
    (∀ q, prices.get (b.asset ++ "USDT") = none → prices.get (b.asset ++ "BUSD") = some q →
      F64.ge (F64.mul b.total q) F64.one = true →
      ∃ c, RecordYields prices draws pos pre b post
        (some { coin := b.asset, amount := b.total, value := F64.mul b.total q, color := c,
                priceSource := b.asset ++ "BUSD" })) := by
  have ht := F64.gt_zero_le_zero htotal
  constructor
  · intro p hp hge
    have htr : prices.truthyAt (b.asset ++ "USDT") = true := by
      rw [truthyAt_of_get hp]; exact (F64.truthy_of_mul_ge_one hge).2
    have hr : resolveValue prices b.asset b.total =
        some (F64.mul b.total p, b.asset ++ "USDT") := by
      simp [resolveValue, hcoin, htr, num_of_get hp]
    obtain ⟨slot, ⟨c, hc⟩, hy⟩ := recordYields_of_forall prices draws pos pre b post
      (fun slot => ∃ c, slot = some (Asset.mk b.asset b.total (F64.mul b.total p) c
        (b.asset ++ "USDT")))
      (fun n => processBalance_some prices draws b n ht hr (F64.ge_one_lt_one hge))
    exact ⟨c, hc ▸ hy⟩
  · intro q hn hq hge
    have htr : prices.truthyAt (b.asset ++ "BUSD") = true := by
      rw [truthyAt_of_get hq]; exact (F64.truthy_of_mul_ge_one hge).2
    have hr : resolveValue prices b.asset b.total =
        some (F64.mul b.total q, b.asset ++ "BUSD") := by
      simp [resolveValue, hcoin, truthyAt_of_get_none hn, htr, num_of_get hq]
    obtain ⟨slot, ⟨c, hc⟩, hy⟩ := recordYields_of_forall prices draws pos pre b post
      (fun slot => ∃ c, slot = some (Asset.mk b.asset b.total (F64.mul b.total q) c
        (b.asset ++ "BUSD")))
      (fun n => processBalance_some prices draws b n ht hr (F64.ge_one_lt_one hge))
    exact ⟨c, hc ▸ hy⟩

/-- C1 at a record `X` of total `1` priced `2` in USDT, `3` in BUSD and `5` in BTC. -/
theorem processPortfolio_price_priority_witness :
    ∃ c, RecordYields [("XBTC", F64.ofNat 5), ("XBUSD", F64.ofNat 3), ("XUSDT", F64.ofNat 2),
        ("BTCUSDT", F64.ofNat 7)] (fun _ => F64.zero) 0 [] ⟨"X", "1", "0"⟩ []
      (some { coin := "X", amount := Balance.total ⟨"X", "1", "0"⟩,
              value := F64.mul (Balance.total ⟨"X", "1", "0"⟩) (F64.ofNat 2), color := c,
              priceSource := "X" ++ "USDT" }) :=
  (processPortfolio_price_priority
    [("XBTC", F64.ofNat 5), ("XBUSD", F64.ofNat 3), ("XUSDT", F64.ofNat 2),
      ("BTCUSDT", F64.ofNat 7)] (fun _ => F64.zero) 0 [] ⟨"X", "1", "0"⟩ []
    (by decide) (by decide!)).1 (F64.ofNat 2) (by decide!) (by decide!)

/-- C2: a record whose coin is not `USDT`, with neither a `<coin>USDT` nor a `<coin>BUSD`
entry but with prices `p1` for `<coin>BTC` and `p2` for `BTCUSDT`: every asset it yields
has amount `total`, value `total * p1 * p2` and a source naming both pairs, and it
does yield that asset when its total is positive and that value is at least `1`. -/
theorem processPortfolio_btc_bridge (prices : PriceMap) (draws : Nat → F64) (pos : Nat)
    (pre : List Balance) (b : Balance) (post : List Balance) (p1 p2 : F64)
    (hcoin : b.asset ≠ "USDT")
    (hu : prices.get (b.asset ++ "USDT") = none) (hb : prices.get (b.asset ++ "BUSD") = none)
    (h1 : prices.get (b.asset ++ "BTC") = some p1) (h2 : prices.get "BTCUSDT" = some p2) :
    (∃ slot, RecordYields prices draws pos pre b post slot ∧
      ∀ a, slot = some a → a.amount = b.total ∧
        a.value = F64.mul (F64.mul b.total p1) p2 ∧
        a.priceSource = b.asset ++ "BTC" ++ " → " ++ "BTCUSDT") ∧
    (F64.gt b.total F64.zero = true →
      F64.ge (F64.mul (F64.mul b.total p1) p2) F64.one = true →
      ∃ c, RecordYields prices draws pos pre b post
        (some { coin := b.asset, amount := b.total,
                value := F64.mul (F64.mul b.total p1) p2, color := c,
                priceSource := b.asset ++ "BTC" ++ " → " ++ "BTCUSDT" })) := by
  have hres : ∀ v src, resolveValue prices b.asset b.total = some (v, src) →
      v = F64.mul (F64.mul b.total p1) p2 ∧ src = b.asset ++ "BTC" ++ " → " ++ "BTCUSDT" := by
    intro v src hr
    simp only [resolveValue, hcoin, truthyAt_of_get_none hu, truthyAt_of_get_none hb,
      num_of_get h1, num_of_get h2, if_false, Bool.false_eq_true] at hr
    split at hr
    · simp only [Option.some.injEq, Prod.mk.injEq] at hr
      refine ⟨hr.1.symm, ?_⟩
      rw [← hr.2]
      simp [String.append_assoc]
    · simp at hr
  constructor
  · obtain ⟨n, hy⟩ := recordYields_callback prices draws pos pre b post
    refine ⟨_, hy, ?_⟩
    intro a ha
    obtain ⟨_, _, hr, _, hamt, _⟩ := processBalance_eq_some prices draws b n ha
    obtain ⟨hv, hs⟩ := hres _ _ hr
    exact ⟨hamt, hv, hs⟩
  · intro htotal hge
    have ht := F64.gt_zero_le_zero htotal
    obtain ⟨hm, hp2⟩ := F64.truthy_of_mul_ge_one hge
    have hp1 : p1.truthy = true := by
      by_contra hc
      have := F64.mul_falsy (a := b.total) (b := p1) (Or.inr (by simpa using hc))
      simp [this] at hm
    have hr : resolveValue prices b.asset b.total =
        some (F64.mul (F64.mul b.total p1) p2, b.asset ++ "BTC" ++ " → " ++ "BTCUSDT") := by
      simp [resolveValue, hcoin, truthyAt_of_get_none hu, truthyAt_of_get_none hb,
        truthyAt_of_get h1, truthyAt_of_get h2, hp1, hp2, num_of_get h1, num_of_get h2,
        String.append_assoc]
    obtain ⟨slot, ⟨c, hc⟩, hy⟩ := recordYields_of_forall prices draws pos pre b post
      (fun slot => ∃ c, slot = some (Asset.mk b.asset b.total
        (F64.mul (F64.mul b.total p1) p2) c (b.asset ++ "BTC" ++ " → " ++ "BTCUSDT")))
      (fun n => processBalance_some prices draws b n ht hr (F64.ge_one_lt_one hge))
    exact ⟨c, hc ▸ hy⟩

/-- C2 at a record `X` of total `1` priced `5` in BTC, with BTC at `7` USDT. -/
theorem processPortfolio_btc_bridge_witness :
    ∃ c, RecordYields [("XBTC", F64.ofNat 5), ("BTCUSDT", F64.ofNat 7)]
      (fun _ => F64.zero) 0 [] ⟨"X", "1", "0"⟩ []
      (some { coin := "X", amount := Balance.total ⟨"X", "1", "0"⟩,
              value := F64.mul (F64.mul (Balance.total ⟨"X", "1", "0"⟩) (F64.ofNat 5))
                (F64.ofNat 7),
              color := c, priceSource := "X" ++ "BTC" ++ " → " ++ "BTCUSDT" }) :=
  (processPortfolio_btc_bridge [("XBTC", F64.ofNat 5), ("BTCUSDT", F64.ofNat 7)]
    (fun _ => F64.zero) 0 [] ⟨"X", "1", "0"⟩ [] (F64.ofNat 5) (F64.ofNat 7)
    (by decide) (by decide!) (by decide!) (by decide!) (by decide!)).2
    (by decide!) (by decide!)

/-- C3: a record whose coin is `USDT` and whose total is at least `1` yields one asset
of amount `total`, value `total` and source `Direct`, whatever the price map holds. -/
theorem processPortfolio_usdt (prices : PriceMap) (draws : Nat → F64) (pos : Nat)
    (pre : List Balance) (b : Balance) (post : List Balance)
    (hcoin : b.asset = "USDT") (htotal : F64.ge b.total F64.one = true) :
    RecordYields prices draws pos pre b post
      (some { coin := "USDT", amount := b.total, value := b.total,
              color := .text "#26A17B", priceSource := "Direct" }) := by
  have hlt := F64.ge_one_lt_one htotal
  have ht : F64.le b.total F64.zero = false := by
    cases hb : b.total with
    | nan => rfl
    | inf s => rw [hb] at htotal; cases s <;> simp_all [F64.ge, F64.le, F64.one, F64.zero]
    | fin s k =>
      rw [hb] at htotal
      have hs := F64.scale_pos
      simp only [F64.ge, F64.le, F64.one, decide_eq_true_eq, F64.signed] at htotal
      simp only [F64.le, F64.zero, decide_eq_false_iff_not, F64.signed]
      cases s <;> simp at htotal ⊢ <;> omega
  have hcall : ∀ n, (processBalance prices draws b n).1 =
      some { coin := "USDT", amount := b.total, value := b.total,
             color := .text "#26A17B", priceSource := "Direct" } := by
    intro n
    simp [processBalance, ht, resolveValue, hcoin, hlt, coinColors]
  obtain ⟨n, hy⟩ := recordYields_callback prices draws pos pre b post
  rw [hcall n] at hy
  exact hy

/-- C3 at a record of `50` USDT, with price entries `USDTUSDT` and `USDTBUSD` present. -/
theorem processPortfolio_usdt_witness :
    RecordYields [("USDTUSDT", F64.ofNat 3), ("USDTBUSD", F64.ofNat 4)] (fun _ => F64.zero) 0
      [] ⟨"USDT", "50", "0"⟩ []
      (some { coin := "USDT", amount := Balance.total ⟨"USDT", "50", "0"⟩,
              value := Balance.total ⟨"USDT", "50", "0"⟩,
              color := .text "#26A17B", priceSource := "Direct" }) :=
  processPortfolio_usdt [("USDTUSDT", F64.ofNat 3), ("USDTBUSD", F64.ofNat 4)]
    (fun _ => F64.zero) 0 [] ⟨"USDT", "50", "0"⟩ [] rfl (by decide!)

/-- C6: a record whose coin is not `USDT`, of positive total, with no `<coin>USDT`
entry, no `<coin>BUSD` entry and not both `<coin>BTC` and `BTCUSDT`, yields no asset;
the balance `{DOGE, "10", "0"}` with the empty price map gives the empty list. -/
theorem processPortfolio_unvaluable :
    (∀ (prices : PriceMap) (draws : Nat → F64) (pos : Nat) (pre : List Balance) (b : Balance)
      (post : List Balance), b.asset ≠ "USDT" → F64.gt b.total F64.zero = true →
      prices.get (b.asset ++ "USDT") = none → prices.get (b.asset ++ "BUSD") = none →
      ¬ (prices.get (b.asset ++ "BTC") ≠ none ∧ prices.get "BTCUSDT" ≠ none) →
      RecordYields prices draws pos pre b post none) ∧
    (∀ (draws : Nat → F64) (pos : Nat) (msg : Option String),
      processPortfolio (some ⟨some [some ⟨"DOGE", "10", "0"⟩], msg⟩) (some []) draws pos =
        .ok ([], pos)) := by
  constructor
  · intro prices draws pos pre b post hcoin _ hu hb hbtc
    have hr : resolveValue prices b.asset b.total = none := by
      have h3 : (prices.truthyAt (b.asset ++ "BTC") && prices.truthyAt "BTCUSDT") = false := by
        by_contra hc
        simp only [Bool.not_eq_false, Bool.and_eq_true] at hc
        apply hbtc
        constructor
        · intro hn; simp [truthyAt_of_get_none hn] at hc
        · intro hn; simp [truthyAt_of_get_none hn] at hc
      simp [resolveValue, hcoin, truthyAt_of_get_none hu, truthyAt_of_get_none hb, h3]
    obtain ⟨n, hy⟩ := recordYields_callback prices draws pos pre b post
    rw [processBalance_none prices draws _ n (Or.inr (Or.inl hr))] at hy
    exact hy
  · intro draws pos msg
    have hr : resolveValue [] "DOGE" (Balance.total ⟨"DOGE", "10", "0"⟩) = none := by
      simp [resolveValue, PriceMap.truthyAt, PriceMap.get]
    have hn := processBalance_none [] draws ⟨"DOGE", "10", "0"⟩ pos (Or.inr (Or.inl hr))
    have hp : (processBalance [] draws ⟨"DOGE", "10", "0"⟩ pos).2 = pos := by
      unfold processBalance
      simp only [hr]
      split <;> rfl
    simp [processPortfolio, mapBalances, hn, hp, sortByValue]

/-- C6 at a record `X` of total `1` whose only price entry is `XBTC` (no `BTCUSDT`). -/
theorem processPortfolio_unvaluable_witness :
    RecordYields [("XBTC", F64.ofNat 5)] (fun _ => F64.zero) 0 [] ⟨"X", "1", "0"⟩ [] none :=
  processPortfolio_unvaluable.1 [("XBTC", F64.ofNat 5)] (fun _ => F64.zero) 0 []
    ⟨"X", "1", "0"⟩ [] (by decide) (by decide!) (by decide!) (by decide!) (by decide!)

/-! ## Dust and empty balances -/

/-- The product of two truthy numbers (neither `NaN` nor a zero) is a number. -/
theorem F64.mul_isNaN_of_truthy {a b : F64} (ha : a.truthy = true) (hb : b.truthy = true) :
    (F64.mul a b).isNaN = false := by
  cases a with
  | nan => simp [F64.truthy] at ha
  | inf sa =>
    cases b with
    | nan => simp [F64.truthy] at hb
    | inf sb => rfl
    | fin sb kb =>
      simp only [F64.truthy, bne_iff_ne, ne_eq] at hb
      simp [F64.mul, hb, F64.isNaN]
  | fin sa ka =>
    cases b with
    | nan => simp [F64.truthy] at hb
    | inf sb =>
      simp only [F64.truthy, bne_iff_ne, ne_eq] at ha
      simp [F64.mul, ha, F64.isNaN]
    | fin sb kb => exact F64.roundRat_isNaN _ _ _

/-- The product of a number and a finite non-zero number is a number. -/
theorem F64.mul_isNaN_of_finite {a b : F64} (ha : a.isNaN = false) (hb : b.isFinite = true)
    (ht : b.truthy = true) : (F64.mul a b).isNaN = false := by
  cases b with
  | nan => simp [F64.isFinite] at hb
  | inf sb => simp [F64.isFinite] at hb
  | fin sb kb =>
    simp only [F64.truthy, bne_iff_ne, ne_eq] at ht
    cases a with
    | nan => simp [F64.isNaN] at ha
    | inf sa => simp [F64.mul, ht, F64.isNaN]
    | fin sa ka => exact F64.roundRat_isNaN _ _ _

theorem F64.gt_zero_truthy {p : F64} (h : F64.gt p F64.zero = true) : p.truthy = true := by
  cases p with
  | nan => simp [F64.gt, F64.lt, F64.zero] at h
  | inf s => rfl
  | fin s k =>
    simp only [F64.gt, F64.lt, F64.zero, decide_eq_true_eq, F64.signed] at h
    simp only [F64.truthy, bne_iff_ne, ne_eq]
    intro hk
    subst hk
    cases s <;> simp at h

/-- A truthy price entry is read as a truthy number. -/
theorem num_truthy {prices : PriceMap} {key : String} (h : prices.truthyAt key = true) :
    (prices.num key).truthy = true := by
  cases hg : prices.get key with
  | none => simp [PriceMap.truthyAt, hg] at h
  | some p => rw [num_of_get hg]; simpa [PriceMap.truthyAt, hg] using h

/-- A truthy `BTCUSDT` entry that is not an infinity is a finite number. -/
theorem bridge_isFinite {prices : PriceMap} (hw : prices.bridgeNotInfinite = true)
    (h : prices.truthyAt "BTCUSDT" = true) : (prices.num "BTCUSDT").isFinite = true := by
  cases hg : prices.get "BTCUSDT" with
  | none => simp [PriceMap.truthyAt, hg] at h
  | some p =>
    rw [num_of_get hg]
    cases p with
    | nan => simp [PriceMap.truthyAt, hg, F64.truthy] at h
    | inf sp => simp [PriceMap.bridgeNotInfinite, hg] at hw
    | fin sp kp => rfl

/-- When the `BTCUSDT` price is not an infinity, a resolved value of a truthy total is a
number. -/
theorem resolveValue_isNaN {prices : PriceMap} (hw : prices.bridgeNotInfinite = true)
    {coin : String} {total v : F64} {src : String} (ht : total.truthy = true)
    (hr : resolveValue prices coin total = some (v, src)) : v.isNaN = false := by
  have hn : total.isNaN = false := by cases total <;> simp_all [F64.truthy, F64.isNaN]
  unfold resolveValue at hr
  split at hr
  · simp only [Option.some.injEq, Prod.mk.injEq] at hr
    rw [← hr.1]; exact hn
  · split at hr
    · rename_i h1
      simp only [Option.some.injEq, Prod.mk.injEq] at hr
      rw [← hr.1]
      exact F64.mul_isNaN_of_truthy ht (num_truthy h1)
    · split at hr
      · rename_i h2
        simp only [Option.some.injEq, Prod.mk.injEq] at hr
        rw [← hr.1]
        exact F64.mul_isNaN_of_truthy ht (num_truthy h2)
      · split at hr
        · rename_i h3
          simp only [Bool.and_eq_true] at h3
          simp only [Option.some.injEq, Prod.mk.injEq] at hr
          rw [← hr.1]
          exact F64.mul_isNaN_of_finite (F64.mul_isNaN_of_truthy ht (num_truthy h3.1))
            (bridge_isFinite hw h3.2) (num_truthy h3.2)
        · simp at hr

/-- When the total is a number and the `BTCUSDT` price is not an infinity, an asset the
callback returns has a positive amount and a value of at least `1`. -/
theorem processBalance_invariant {prices : PriceMap} (hw : prices.bridgeNotInfinite = true)
    (draws : Nat → F64) {b : Balance} (hn : b.total.isNaN = false) (p : Nat) {a : Asset}
    (h : (processBalance prices draws b p).1 = some a) :
    F64.gt a.amount F64.zero = true ∧ F64.ge a.value F64.one = true ∧
      a.amount.isNaN = false ∧ a.value.isNaN = false := by
  obtain ⟨hle, hlt, hr, _, hamt, _⟩ := processBalance_eq_some prices draws b p h
  have hgt := F64.gt_zero_of_not_le hn hle
  have hv : a.value.isNaN = false := resolveValue_isNaN hw (F64.gt_zero_truthy hgt) hr
  rw [hamt]
  exact ⟨hgt, F64.ge_one_of_not_lt hv hlt, hn, hv⟩

/-- On records that are all present, the call returns, and each entry of the result of
`.map(...)` is what the callback returns for one of the records. -/
theorem mapBalances_typed_mem (prices : PriceMap) (draws : Nat → F64) (bs : List Balance)
    (pos : Nat) :
    ∃ slots pos1, mapBalances prices draws (bs.map some) pos = .ok (slots, pos1) ∧
      ∀ slot ∈ slots, ∃ b ∈ bs, ∃ p, slot = (processBalance prices draws b p).1 := by
  induction bs generalizing pos with
  | nil => exact ⟨[], pos, rfl, by simp⟩
  | cons b bs ih =>
    obtain ⟨slots, pos1, h, hm⟩ := ih (processBalance prices draws b pos).2
    refine ⟨(processBalance prices draws b pos).1 :: slots, pos1, by simp [mapBalances, h], ?_⟩
    intro slot hs
    rcases List.mem_cons.mp hs with hs | hs
    · exact ⟨b, List.mem_cons_self _ _, pos, hs⟩
    · obtain ⟨b1, hb1, p, hp⟩ := hm slot hs
      exact ⟨b1, List.mem_cons_of_mem _ hb1, p, hp⟩

/-- A callback that returns `null` has consumed no random draw. -/
theorem processBalance_none_snd (prices : PriceMap) (draws : Nat → F64) (b : Balance) (p : Nat)
    (h : (processBalance prices draws b p).1 = none) :
    (processBalance prices draws b p).2 = p := by
  unfold processBalance at h ⊢
  simp only at h ⊢
  cases ht : F64.le b.total F64.zero with
  | true => simp
  | false =>
    simp only [ht] at h ⊢
    cases hr : resolveValue prices b.asset b.total with
    | none => simp
    | some r =>
      obtain ⟨v, src⟩ := r
      simp only [hr] at h ⊢
      cases hv : F64.lt v F64.one with
      | true => simp
      | false =>
        simp only [hv] at h
        cases hc : coinColors b.asset <;> simp [hc] at h

/-- A snapshot of one record that yields no asset gives the empty list. -/
theorem processPortfolio_single_none (prices : PriceMap) (draws : Nat → F64) (b : Balance)
    (pos : Nat) (msg : Option String) (h : (processBalance prices draws b pos).1 = none) :
    processPortfolio (some ⟨some [some b], msg⟩) (some prices) draws pos = .ok ([], pos) := by
  simp [processPortfolio, mapBalances, h, processBalance_none_snd prices draws b pos h,
    sortByValue]

/-- C4, as the claim states it, fails: a USDT record whose `free` is `abc` gives an
asset whose amount and value are `NaN` (neither `> 0` nor `>= 1`), and `1e-200` of a coin
priced `1e-200` BTC with `BTCUSDT` at `Infinity` gives an asset of value `NaN` (the
first product underflows to `0`, and `0 * Infinity` is `NaN`). -/
theorem processPortfolio_nan_asset :
    (∃ out pos1 a,
      processPortfolio (some ⟨some [some ⟨"USDT", "abc", "0"⟩], none⟩) (some [])
        (fun _ => F64.zero) 0 = .ok (out, pos1) ∧ a ∈ out ∧
      F64.gt a.amount F64.zero = false ∧ F64.ge a.value F64.one = false) ∧
    (∃ out pos1 a,
      processPortfolio (some ⟨some [some ⟨"X", "1e-200", "0"⟩], none⟩)
        (some [("XBTC", parseFloat "1e-200"), ("BTCUSDT", F64.inf false)])
        (fun _ => F64.zero) 0 = .ok (out, pos1) ∧ a ∈ out ∧
      F64.ge a.value F64.one = false) := by
  refine ⟨⟨[⟨"USDT", .nan, .nan, .text "#26A17B", "Direct"⟩], 0,
      ⟨"USDT", .nan, .nan, .text "#26A17B", "Direct"⟩, by decide!, by simp, rfl, rfl⟩,
    ⟨[⟨"X", parseFloat "1e-200", .nan, .text "#0", "XBTC → BTCUSDT"⟩], 1,
      ⟨"X", parseFloat "1e-200", .nan, .text "#0", "XBTC → BTCUSDT"⟩, by decide!, by simp, rfl⟩⟩

/-- C4, amended: when every total `free + locked` is a number (not `NaN`) and the
`BTCUSDT` price is not an infinity, every asset of the output has amount `> 0` and value
`>= 1`; for every input, a record with `free + locked <= 0` yields no asset, a record
whose resolved value is below `1` yields no asset, and so `0.5` of a coin priced `1.50`
(value `0.75`) gives the empty list. -/
theorem processPortfolio_invariant :
    (∀ (prices : PriceMap) (draws : Nat → F64) (pos : Nat) (bs : List Balance)
      (msg : Option String), prices.bridgeNotInfinite = true →
      (∀ b ∈ bs, b.total.isNaN = false) →
      ∃ out pos1, processPortfolio (some ⟨some (bs.map some), msg⟩) (some prices) draws pos =
          .ok (out, pos1) ∧
        ∀ a ∈ out, F64.gt a.amount F64.zero = true ∧ F64.ge a.value F64.one = true) ∧
    (∀ (prices : PriceMap) (draws : Nat → F64) (pos : Nat) (pre : List Balance) (b : Balance)
      (post : List Balance), F64.le b.total F64.zero = true →
      RecordYields prices draws pos pre b post none) ∧
    (∀ (prices : PriceMap) (draws : Nat → F64) (pos : Nat) (pre : List Balance) (b : Balance)
      (post : List Balance) (v : F64) (src : String),
      resolveValue prices b.asset b.total = some (v, src) → F64.lt v F64.one = true →
      RecordYields prices draws pos pre b post none) ∧
    (F64.mul (Balance.total ⟨"X", "0.5", "0"⟩) (parseFloat "1.50") = parseFloat "0.75" ∧
      ∀ (draws : Nat → F64) (pos : Nat) (msg : Option String),
        processPortfolio (some ⟨some [some ⟨"X", "0.5", "0"⟩], msg⟩)
          (some [("XUSDT", parseFloat "1.50")]) draws pos = .ok ([], pos)) := by
  refine ⟨?_, ?_, ?_, by decide!, ?_⟩
  · intro prices draws pos bs msg hw hbs
    obtain ⟨slots, pos1, hmap, hmem⟩ := mapBalances_typed_mem prices draws bs pos
    refine ⟨sortByValue (slots.filterMap id), pos1, by simp [processPortfolio, hmap], ?_⟩
    intro a ha
    unfold sortByValue at ha
    rw [List.mem_mergeSort, List.mem_filterMap] at ha
    obtain ⟨slot, hslot, hid⟩ := ha
    obtain ⟨b, hb, p, hp⟩ := hmem slot hslot
    have hsome : (processBalance prices draws b p).1 = some a := by
      rw [← hp]; simpa using hid
    have := processBalance_invariant hw draws (hbs b hb) p hsome
    exact ⟨this.1, this.2.1⟩
  · intro prices draws pos pre b post hle
    obtain ⟨n, hy⟩ := recordYields_callback prices draws pos pre b post
    rw [processBalance_none prices draws b n (Or.inl hle)] at hy
    exact hy
  · intro prices draws pos pre b post v src hr hv
    obtain ⟨n, hy⟩ := recordYields_callback prices draws pos pre b post
    rw [processBalance_none prices draws b n (Or.inr (Or.inr ⟨v, src, hr, hv⟩))] at hy
    exact hy
  · intro draws pos msg
    apply processPortfolio_single_none
    apply processBalance_none
    exact Or.inr (Or.inr ⟨parseFloat "0.75", "XUSDT", by decide!, by decide!⟩)

/-- C4, amended, at a snapshot holding `-5 + 10` of `X` (priced `3`), `50` USDT and an
empty `Y`, with a price map that also holds a zero price and a `NaN` price. -/
theorem processPortfolio_invariant_witness :
    ∃ out pos1, processPortfolio
        (some ⟨some ([⟨"X", "-5", "10"⟩, ⟨"USDT", "50", "0"⟩, ⟨"Y", "0", "0"⟩].map some), none⟩)
        (some [("XUSDT", F64.ofNat 3), ("YUSDT", F64.zero), ("ZUSDT", F64.nan)])
        (fun _ => F64.zero) 0 = .ok (out, pos1) ∧
      ∀ a ∈ out, F64.gt a.amount F64.zero = true ∧ F64.ge a.value F64.one = true :=
  processPortfolio_invariant.1 [("XUSDT", F64.ofNat 3), ("YUSDT", F64.zero), ("ZUSDT", F64.nan)]
    (fun _ => F64.zero) 0 [⟨"X", "-5", "10"⟩, ⟨"USDT", "50", "0"⟩, ⟨"Y", "0", "0"⟩] none
    (by decide!) (by decide!)

/-! ## Totality -/

/-- C9: on a snapshot whose `balances` is a list of records and any price map the call
returns a list and does not throw; when the snapshot, its `balances` field or the price
map is absent it returns the empty list. -/
theorem processPortfolio_total :
    (∀ (prices : PriceMap) (draws : Nat → F64) (pos : Nat) (bs : List Balance)
      (msg : Option String),
      ∃ out pos1, processPortfolio (some ⟨some (bs.map some), msg⟩) (some prices) draws pos =
        .ok (out, pos1)) ∧
    (∀ (prices : Option PriceMap) (draws : Nat → F64) (pos : Nat),
      processPortfolio none prices draws pos = .ok ([], pos)) ∧
    (∀ (prices : Option PriceMap) (draws : Nat → F64) (pos : Nat) (msg : Option String),
      processPortfolio (some ⟨none, msg⟩) prices draws pos = .ok ([], pos)) ∧
    (∀ (accountData : Option AccountData) (draws : Nat → F64) (pos : Nat),
      processPortfolio accountData none draws pos = .ok ([], pos)) := by
  refine ⟨?_, ?_, ?_, ?_⟩
  · intro prices draws pos bs msg
    obtain ⟨slots, pos1, hmap, _⟩ := mapBalances_typed prices draws bs pos
    exact ⟨sortByValue (slots.filterMap id), pos1, by simp [processPortfolio, hmap]⟩
  · intro prices draws pos
    rfl
  · intro prices draws pos msg
    rfl
  · intro accountData draws pos
    unfold processPortfolio
    split
    · rename_i h; cases h
    · rfl

/-! ## The comparator of the sort -/

theorem F64.bitLengthAux_acc (fuel n acc : Nat) :
    F64.bitLengthAux fuel n acc = acc + F64.bitLengthAux fuel n 0 := by
  induction fuel generalizing n acc with
  | zero => simp [F64.bitLengthAux]
  | succ fuel ih =>
    simp only [F64.bitLengthAux]
    split
    · simp
    · rw [ih (n / 2) (acc + 1), ih (n / 2) (0 + 1)]; omega

theorem F64.pow_bitLengthAux_le (fuel n : Nat) (hn : 0 < n) (hf : n ≤ fuel) :
    1 ≤ F64.bitLengthAux fuel n 0 ∧ 2 ^ (F64.bitLengthAux fuel n 0 - 1) ≤ n := by
  induction fuel generalizing n with
  | zero => omega
  | succ fuel ih =>
    have hne : n ≠ 0 := by omega
    simp only [F64.bitLengthAux, hne, if_false]
    rw [F64.bitLengthAux_acc]
    refine ⟨by omega, ?_⟩
    by_cases h2 : n / 2 = 0
    · simp [h2, F64.bitLengthAux_zero]; omega
    · obtain ⟨h1, hp⟩ := ih (n / 2) (by omega) (by omega)
      have hx : 0 + 1 + F64.bitLengthAux fuel (n / 2) 0 - 1 =
          (F64.bitLengthAux fuel (n / 2) 0 - 1) + 1 := by omega
      rw [hx, pow_succ]
      omega

/-- A non-zero number has its leading bit within its bit length. -/
theorem F64.pow_bitLength_le {n : Nat} (hn : 0 < n) (c : Nat) (hc : 1 ≤ c) :
    2 ^ (F64.bitLength n - c) ≤ n := by
  obtain ⟨_, hp⟩ := F64.pow_bitLengthAux_le n n hn (Nat.le_refl n)
  unfold F64.bitLength
  exact Nat.le_trans (Nat.pow_le_pow_right (by decide) (by omega)) hp

/-- Rounding a non-zero integer number of units gives a non-zero number. -/
theorem F64.roundRat_pos (s : Bool) {n : Nat} (hn : 0 < n) :
    F64.roundRat s n 1 = F64.inf s ∨ ∃ k, 0 < k ∧ F64.roundRat s n 1 = F64.fin s k := by
  have hj : 2 ^ (F64.bitLength n - 53) ≤ n := F64.pow_bitLength_le hn 53 (by decide)
  have hpos : 0 < 2 ^ (F64.bitLength n - 53) := by positivity
  have hq : 0 < n / 2 ^ (F64.bitLength n - 53) := Nat.div_pos hj hpos
  unfold F64.roundRat
  simp only [Nat.div_one, Nat.one_mul]
  split_ifs
  · exact Or.inl rfl
  · exact Or.inr ⟨_, Nat.mul_pos (by omega) hpos, rfl⟩
  · exact Or.inl rfl
  · exact Or.inr ⟨_, Nat.mul_pos hq hpos, rfl⟩

/-- The comparator result `y - x` is positive exactly when `x < y`. -/
theorem F64.gt_sub_zero (x y : F64) :
    F64.gt (F64.sub y x) F64.zero = F64.lt x y := by
  cases x with
  | nan => cases y <;> rfl
  | inf sx =>
    cases y with
    | nan => rfl
    | inf sy => cases sx <;> cases sy <;> rfl
    | fin sy ky => cases sx <;> rfl
  | fin sx kx =>
    cases y with
    | nan => rfl
    | inf sy => cases sy <;> rfl
    | fin sy ky =>
      simp only [F64.sub, F64.neg, F64.add]
      have hsx : F64.signed (!sx) kx = - F64.signed sx kx := by
        cases sx <;> simp [F64.signed]
      rw [hsx]
      split
      · rename_i h0
        have hl : F64.lt (F64.fin sx kx) (F64.fin sy ky) = false := by
          simp only [F64.lt, decide_eq_false_iff_not]; omega
        rw [hl]
        cases (sy && !sx) <;> simp [F64.gt, F64.lt, F64.zero, F64.signed]
      · rename_i h0
        have hn : 0 < (F64.signed sy ky + -F64.signed sx kx).natAbs :=
          Int.natAbs_pos.mpr h0
        rcases F64.roundRat_pos (decide (F64.signed sy ky + -F64.signed sx kx < 0)) hn with
          h | ⟨k, hk, h⟩
        · rw [h]
          simp only [F64.gt, F64.lt, F64.zero]
          by_cases hlt : F64.signed sy ky + -F64.signed sx kx < 0
          · simp [hlt]; omega
          · simp [hlt]; omega
        · rw [h]
          simp only [F64.gt, F64.lt, F64.zero, F64.signed]
          by_cases hlt : F64.signed sy ky + -F64.signed sx kx < 0
          · simp [hlt]
            simp only [F64.signed] at hlt ⊢
            omega
          · simp [hlt]
            simp only [F64.signed] at hlt h0 ⊢
            omega

/-- The sort leaves `a` in front of `b` exactly when `a.value < b.value` is false. -/
theorem keepsOrder_eq (a b : Asset) : keepsOrder a b = !(F64.lt a.value b.value) := by
  simp [keepsOrder, compareByValue, F64.gt_sub_zero]

/-! ## Sorting -/

theorem F64.ltTotal_eq_lt {x y : F64} (hx : x.isNaN = false) (hy : y.isNaN = false) :
    F64.ltTotal x y = F64.lt x y := by
  cases x <;> cases y <;> simp_all [F64.ltTotal, F64.isNaN]

theorem F64.ltTotal_trans (x y z : F64) (h1 : F64.ltTotal x y = false)
    (h2 : F64.ltTotal y z = false) : F64.ltTotal x z = false := by
  cases x with
  | nan => cases y <;> cases z <;> simp_all [F64.ltTotal]
  | inf sx =>
    cases y with
    | nan => cases z <;> simp_all [F64.ltTotal]
    | inf sy =>
      cases z with
      | nan => rfl
      | inf sz => cases sx <;> cases sy <;> cases sz <;> simp_all [F64.ltTotal, F64.lt]
      | fin sz kz => cases sx <;> cases sy <;> simp_all [F64.ltTotal, F64.lt]
    | fin sy ky =>
      cases z with
      | nan => rfl
      | inf sz => cases sx <;> cases sz <;> simp_all [F64.ltTotal, F64.lt]
      | fin sz kz => cases sx <;> simp_all [F64.ltTotal, F64.lt]
  | fin sx kx =>
    cases y with
    | nan => cases z <;> simp_all [F64.ltTotal]
    | inf sy =>
      cases z with
      | nan => rfl
      | inf sz => cases sy <;> cases sz <;> simp_all [F64.ltTotal, F64.lt]
      | fin sz kz => cases sy <;> simp_all [F64.ltTotal, F64.lt]
    | fin sy ky =>
      cases z with
      | nan => rfl
      | inf sz => cases sz <;> simp_all [F64.ltTotal, F64.lt]
      | fin sz kz =>
        simp only [F64.ltTotal, F64.lt, decide_eq_false_iff_not] at h1 h2 ⊢
        omega

theorem F64.ltTotal_total (x y : F64) :
    (!F64.ltTotal x y || !F64.ltTotal y x) = true := by
  cases x with
  | nan => cases y <;> simp [F64.ltTotal]
  | inf sx =>
    cases y with
    | nan => simp [F64.ltTotal]
    | inf sy => cases sx <;> cases sy <;> simp [F64.ltTotal, F64.lt]
    | fin sy ky => cases sx <;> simp [F64.ltTotal, F64.lt]
  | fin sx kx =>
    cases y with
    | nan => simp [F64.ltTotal]
    | inf sy => cases sy <;> simp [F64.ltTotal, F64.lt]
    | fin sy ky =>
      simp only [F64.ltTotal, F64.lt, Bool.or_eq_true, Bool.not_eq_true', decide_eq_false_iff_not]
      omega

/-- On numbers, `x < y` false means `x >= y`. -/
theorem F64.ge_of_not_lt {x y : F64} (hx : x.isNaN = false) (hy : y.isNaN = false)
    (h : F64.lt x y = false) : F64.ge x y = true := by
  cases x with
  | nan => simp [F64.isNaN] at hx
  | inf sx =>
    cases y with
    | nan => simp [F64.isNaN] at hy
    | inf sy => cases sx <;> cases sy <;> simp_all [F64.lt, F64.ge, F64.le]
    | fin sy ky => cases sx <;> simp_all [F64.lt, F64.ge, F64.le]
  | fin sx kx =>
    cases y with
    | nan => simp [F64.isNaN] at hy
    | inf sy => cases sy <;> simp_all [F64.lt, F64.ge, F64.le]
    | fin sy ky =>
      simp only [F64.lt, decide_eq_false_iff_not] at h
      simp only [F64.ge, F64.le, decide_eq_true_eq]
      omega

/-- Two numbers equal to a third are not ordered by `<`. -/
theorem F64.ltTotal_of_eq {x y v : F64} (hx : F64.eq x v = true) (hy : F64.eq y v = true) :
    F64.ltTotal x y = false := by
  cases v with
  | nan => cases x <;> simp [F64.eq] at hx
  | inf sv =>
    cases x with
    | nan => simp [F64.eq] at hx
    | fin sx kx => simp [F64.eq] at hx
    | inf sx =>
      cases y with
      | nan => simp [F64.eq] at hy
      | fin sy ky => simp [F64.eq] at hy
      | inf sy => cases sx <;> cases sy <;> cases sv <;> simp_all [F64.eq, F64.ltTotal, F64.lt]
  | fin sv kv =>
    cases x with
    | nan => simp [F64.eq] at hx
    | inf sx => simp [F64.eq] at hx
    | fin sx kx =>
      cases y with
      | nan => simp [F64.eq] at hy
      | inf sy => simp [F64.eq] at hy
      | fin sy ky =>
        simp only [F64.eq, decide_eq_true_eq] at hx hy
        simp only [F64.ltTotal, F64.lt, decide_eq_false_iff_not]
        omega

/-- On assets whose values are numbers the sort is the merge sort by the total order. -/
theorem sortByValue_eq (l : List Asset) (h : ∀ a ∈ l, a.value.isNaN = false) :
    sortByValue l = l.mergeSort (fun a b => !F64.ltTotal a.value b.value) := by
  have hm := List.map_mergeSort (r := keepsOrder)
    (s := fun a b => !F64.ltTotal a.value b.value) (f := id) (l := l)
    (fun a ha b hb => by
      simp only [id, keepsOrder_eq, F64.ltTotal_eq_lt (h a ha) (h b hb)])
  simpa [sortByValue] using hm

/-- The sort of assets whose values are numbers is in descending order of value and
keeps, for every value, the assets of that value in their original order. -/
theorem sortByValue_sorted_stable (l : List Asset) (h : ∀ a ∈ l, a.value.isNaN = false) :
    (sortByValue l).Pairwise (fun a b => F64.ge a.value b.value = true) ∧
    ∀ v, (sortByValue l).filter (fun a => F64.eq a.value v) =
      l.filter (fun a => F64.eq a.value v) := by
  have htrans : ∀ a b c : Asset, (!F64.ltTotal a.value b.value) = true →
      (!F64.ltTotal b.value c.value) = true → (!F64.ltTotal a.value c.value) = true := by
    intro a b c h1 h2
    simp only [Bool.not_eq_true'] at h1 h2 ⊢
    exact F64.ltTotal_trans _ _ _ h1 h2
  have htotal : ∀ a b : Asset,
      (!F64.ltTotal a.value b.value || !F64.ltTotal b.value a.value) = true :=
    fun a b => F64.ltTotal_total _ _
  rw [sortByValue_eq l h]
  constructor
  · have hs := List.sorted_mergeSort htrans htotal l
    refine List.Pairwise.imp_of_mem ?_ hs
    intro a b ha hb hab
    rw [List.mem_mergeSort] at ha hb
    simp only [Bool.not_eq_true'] at hab
    rw [F64.ltTotal_eq_lt (h a ha) (h b hb)] at hab
    exact F64.ge_of_not_lt (h a ha) (h b hb) hab
  · intro v
    have hc : (l.filter (fun a => F64.eq a.value v)).Pairwise
        (fun a b => (!F64.ltTotal a.value b.value) = true) := by
      rw [List.pairwise_iff_forall_sublist]
      intro a b hab
      have ha : a ∈ l.filter (fun a => F64.eq a.value v) := hab.subset (by simp)
      have hb : b ∈ l.filter (fun a => F64.eq a.value v) := hab.subset (by simp)
      simp only [List.mem_filter] at ha hb
      simp only [Bool.not_eq_true']
      exact F64.ltTotal_of_eq ha.2 hb.2
    have hsub := List.sublist_mergeSort htrans htotal hc (List.filter_sublist l)
    have hsub2 := hsub.filter (fun a => F64.eq a.value v)
    rw [List.filter_filter] at hsub2
    simp only [Bool.and_self] at hsub2
    have hlen := ((List.mergeSort_perm l
      (fun a b => !F64.ltTotal a.value b.value)).filter (fun a => F64.eq a.value v)).length_eq
    exact (hsub2.eq_of_length hlen.symm).symm

/-- A list that holds an asset whose value is `NaN` and another asset is not in
descending order of value, however it is arranged. -/
theorem not_sorted_of_nan {l : List Asset} {a b : Asset} (ha : a ∈ l) (hb : b ∈ l)
    (hab : a ≠ b) (hn : a.value.isNaN = true) :
    ¬ l.Pairwise (fun x y => F64.ge x.value y.value = true) := by
  intro hp
  have hsym : Symmetric (fun x y : Asset =>
      F64.ge x.value y.value = true ∨ F64.ge y.value x.value = true) :=
    fun x y h => h.symm
  have h := (hp.imp (fun {x y} (h : F64.ge x.value y.value = true) =>
    (Or.inl h : F64.ge x.value y.value = true ∨ F64.ge y.value x.value = true))).forall
      hsym ha hb hab
  have hv : a.value = F64.nan := by
    cases hvv : a.value <;> simp_all [F64.isNaN]
  rw [hv] at h
  rcases h with h | h
  · cases hb2 : b.value <;> simp [F64.ge, F64.le, hb2] at h
  · simp [F64.ge, F64.le] at h

/-- C5, as the claim states it, fails: for balances `[{X, "2"}, {USDT, "abc"}, {Y, "3"}]`
priced `1` each the call returns three assets, one of value `NaN`, and no arrangement of
them is in descending order of value. -/
theorem processPortfolio_nan_not_sorted :
    ∃ out pos1,
      processPortfolio
        (some ⟨some [some ⟨"X", "2", "0"⟩, some ⟨"USDT", "abc", "0"⟩, some ⟨"Y", "3", "0"⟩],
          none⟩)
        (some [("XUSDT", F64.ofNat 1), ("YUSDT", F64.ofNat 1)]) (fun _ => F64.zero) 0 =
        .ok (out, pos1) ∧
      out.length = 3 ∧
      ∀ l : List Asset, l.Perm out →
        ¬ l.Pairwise (fun a b => F64.ge a.value b.value = true) := by
  refine ⟨[⟨"Y", F64.ofNat 3, F64.ofNat 3, .text "#0", "YUSDT"⟩,
    ⟨"X", F64.ofNat 2, F64.ofNat 2, .text "#0", "XUSDT"⟩,
    ⟨"USDT", .nan, .nan, .text "#26A17B", "Direct"⟩], 2, by decide!, rfl, ?_⟩
  intro l hl
  apply not_sorted_of_nan (a := ⟨"USDT", .nan, .nan, .text "#26A17B", "Direct"⟩)
    (b := ⟨"X", F64.ofNat 2, F64.ofNat 2, .text "#0", "XUSDT"⟩)
  · exact hl.mem_iff.mpr (by simp)
  · exact hl.mem_iff.mpr (by simp)
  · intro h
    have := congrArg Asset.coin h
    exact absurd this (by decide)
  · rfl

/-- C5, amended: when every total `free + locked` is a number (not `NaN`) and the
`BTCUSDT` price is not an infinity, the list returned is sorted by value in descending
order, and for every value the assets of that value come in the order of their balance
records (the order of the non-null entries of the `.map(...)` result). -/
theorem processPortfolio_sorted_stable (prices : PriceMap) (draws : Nat → F64) (pos : Nat)
    (bs : List Balance) (msg : Option String) (hw : prices.bridgeNotInfinite = true)
    (hb : ∀ b ∈ bs, b.total.isNaN = false) :
    ∃ slots out pos1,
      mapBalances prices draws (bs.map some) pos = .ok (slots, pos1) ∧
      processPortfolio (some ⟨some (bs.map some), msg⟩) (some prices) draws pos =
        .ok (out, pos1) ∧
      out.Pairwise (fun a b => F64.ge a.value b.value = true) ∧
      ∀ v, out.filter (fun a => F64.eq a.value v) =
        (slots.filterMap id).filter (fun a => F64.eq a.value v) := by
  obtain ⟨slots, pos1, hmap, hmem⟩ := mapBalances_typed_mem prices draws bs pos
  have hnum : ∀ a ∈ slots.filterMap id, a.value.isNaN = false := by
    intro a ha
    rw [List.mem_filterMap] at ha
    obtain ⟨slot, hslot, hid⟩ := ha
    obtain ⟨b, hbm, p, hp⟩ := hmem slot hslot
    have hsome : (processBalance prices draws b p).1 = some a := by
      rw [← hp]; simpa using hid
    exact (processBalance_invariant hw draws (hb b hbm) p hsome).2.2.2
  obtain ⟨hsorted, hstable⟩ := sortByValue_sorted_stable (slots.filterMap id) hnum
  exact ⟨slots, sortByValue (slots.filterMap id), pos1, hmap,
    by simp [processPortfolio, hmap], hsorted, hstable⟩

/-- C5, amended, at a snapshot with two holdings of equal value `6` around a larger one. -/
theorem processPortfolio_sorted_stable_witness :
    ∃ slots out pos1,
      mapBalances [("XUSDT", F64.ofNat 3), ("YUSDT", F64.ofNat 2)] (fun _ => F64.zero)
        ([⟨"X", "2", "0"⟩, ⟨"USDT", "50", "0"⟩, ⟨"Y", "3", "0"⟩].map some) 0 =
        .ok (slots, pos1) ∧
      processPortfolio
        (some ⟨some ([⟨"X", "2", "0"⟩, ⟨"USDT", "50", "0"⟩, ⟨"Y", "3", "0"⟩].map some), none⟩)
        (some [("XUSDT", F64.ofNat 3), ("YUSDT", F64.ofNat 2)]) (fun _ => F64.zero) 0 =
        .ok (out, pos1) ∧
      out.Pairwise (fun a b => F64.ge a.value b.value = true) ∧
      ∀ v, out.filter (fun a => F64.eq a.value v) =
        (slots.filterMap id).filter (fun a => F64.eq a.value v) :=
  processPortfolio_sorted_stable [("XUSDT", F64.ofNat 3), ("YUSDT", F64.ofNat 2)]
    (fun _ => F64.zero) 0 [⟨"X", "2", "0"⟩, ⟨"USDT", "50", "0"⟩, ⟨"Y", "3", "0"⟩] none
    (by decide!) (by decide!)

/-! ## End-to-end scenario 1 -/

/-- For a coin of the fixed color lookup the callback does not call `Math.random()`. -/
theorem processBalance_fixed_color (prices : PriceMap) (draws : Nat → F64) (b : Balance)
    (pos : Nat) {c : ColorValue} (hc : coinColors b.asset = some c) :
    processBalance prices draws b pos = ((processBalance prices (fun _ => F64.zero) b 0).1, pos) := by
  unfold processBalance
  simp only [hc]
  split
  · rfl
  · split
    · rfl
    · split <;> rfl

/-- C7, as the claim states it, fails: the source recorded for the USDT holding is
`Direct`, not `direct`. -/
theorem scenario1_source_not_lowercase :
    ¬ ∃ c1 c2 pos1,
      processPortfolio (some ⟨some [some ⟨"BTC", "0.01", "0"⟩, some ⟨"USDT", "50", "0"⟩], none⟩)
        (some [("BTCUSDT", F64.ofNat 60000)]) (fun _ => F64.zero) 0 =
      .ok ([⟨"BTC", parseFloat "0.01", F64.ofNat 600, c1, "BTCUSDT"⟩,
            ⟨"USDT", F64.ofNat 50, F64.ofNat 50, c2, "direct"⟩], pos1) := by
  have h : processPortfolio
      (some ⟨some [some ⟨"BTC", "0.01", "0"⟩, some ⟨"USDT", "50", "0"⟩], none⟩)
      (some [("BTCUSDT", F64.ofNat 60000)]) (fun _ => F64.zero) 0 =
      .ok ([⟨"BTC", parseFloat "0.01", F64.ofNat 600, .text "#F7931A", "BTCUSDT"⟩,
            ⟨"USDT", F64.ofNat 50, F64.ofNat 50, .text "#26A17B", "Direct"⟩], 0) := by
    decide!
  rintro ⟨c1, c2, pos1, h2⟩
  rw [h] at h2
  simp only [Except.ok.injEq, Prod.mk.injEq, List.cons.injEq, Asset.mk.injEq] at h2
  exact absurd h2.1.2.1.2.2.2.2 (by decide)

/-- C7, amended: for balances `[{BTC, "0.01", "0"}, {USDT, "50", "0"}]` and prices
`{BTCUSDT: 60000}` the call returns the BTC asset (amount `0.01`, value `600`, source
`BTCUSDT`) then the USDT asset (amount `50`, value `50`, source `Direct`), and the
total value computed from them is `650`. -/
theorem scenario1 (draws : Nat → F64) (pos : Nat) (msg : Option String) :
    processPortfolio (some ⟨some [some ⟨"BTC", "0.01", "0"⟩, some ⟨"USDT", "50", "0"⟩], msg⟩)
        (some [("BTCUSDT", F64.ofNat 60000)]) draws pos =
      .ok ([⟨"BTC", parseFloat "0.01", F64.ofNat 600, .text "#F7931A", "BTCUSDT"⟩,
            ⟨"USDT", F64.ofNat 50, F64.ofNat 50, .text "#26A17B", "Direct"⟩], pos) ∧
    totalValue [⟨"BTC", parseFloat "0.01", F64.ofNat 600, .text "#F7931A", "BTCUSDT"⟩,
        ⟨"USDT", F64.ofNat 50, F64.ofNat 50, .text "#26A17B", "Direct"⟩] = F64.ofNat 650 := by
  refine ⟨?_, by decide!⟩
  have e1 := processBalance_fixed_color [("BTCUSDT", F64.ofNat 60000)] draws
    ⟨"BTC", "0.01", "0"⟩ pos (c := .text "#F7931A") (by decide)
  have e2 := processBalance_fixed_color [("BTCUSDT", F64.ofNat 60000)] draws
    ⟨"USDT", "50", "0"⟩ pos (c := .text "#26A17B") (by decide)
  have hL : sortByValue (List.filterMap id
      [(processBalance [("BTCUSDT", F64.ofNat 60000)] (fun _ => F64.zero)
          ⟨"BTC", "0.01", "0"⟩ 0).1,
       (processBalance [("BTCUSDT", F64.ofNat 60000)] (fun _ => F64.zero)
          ⟨"USDT", "50", "0"⟩ 0).1]) =
      [⟨"BTC", parseFloat "0.01", F64.ofNat 600, .text "#F7931A", "BTCUSDT"⟩,
       ⟨"USDT", F64.ofNat 50, F64.ofNat 50, .text "#26A17B", "Direct"⟩] := by
    decide!
  simp only [processPortfolio, mapBalances, e1, e2]
  rw [hL]

/-! ## Determinism -/

/-- C8, as the claim states it, fails: two calls on the same snapshot and price map
whose `Math.random()` results differ return different lists (a DOGE holding gets the
color `#7fffff` in one and `#3fffff` in the other). -/
theorem processPortfolio_color_differs :
    processPortfolio (some ⟨some [some ⟨"DOGE", "10", "0"⟩], none⟩)
        (some [("DOGEUSDT", F64.ofNat 1)]) (fun _ => parseFloat "0.5") 0 ≠
      processPortfolio (some ⟨some [some ⟨"DOGE", "10", "0"⟩], none⟩)
        (some [("DOGEUSDT", F64.ofNat 1)]) (fun _ => parseFloat "0.25") 0 := by
  decide!

/-- The callback gives the same fields apart from a random color, whatever the draws. -/
theorem processBalance_fixedPart (prices : PriceMap) (d1 d2 : Nat → F64) (b : Balance)
    (p1 p2 : Nat) :
    (processBalance prices d1 b p1).1.map Asset.fixedPart =
      (processBalance prices d2 b p2).1.map Asset.fixedPart := by
  unfold processBalance
  simp only
  split
  · rfl
  · split
    · rfl
    · split
      · rfl
      · split <;> rfl

/-- The `.map(...)` gives the same entries apart from random colors, or throws the same
error, whatever the draws. -/
theorem mapBalances_fixedPart (prices : PriceMap) (d1 d2 : Nat → F64)
    (bs : List (Option Balance)) (p1 p2 : Nat) :
    match mapBalances prices d1 bs p1, mapBalances prices d2 bs p2 with
    | .ok (s1, _), .ok (s2, _) =>
      s1.map (Option.map Asset.fixedPart) = s2.map (Option.map Asset.fixedPart)
    | .error e1, .error e2 => e1 = e2
    | _, _ => False := by
  induction bs generalizing p1 p2 with
  | nil => simp [mapBalances]
  | cons x bs ih =>
    cases x with
    | none => simp [mapBalances]
    | some b =>
      have h := ih (processBalance prices d1 b p1).2 (processBalance prices d2 b p2).2
      simp only [mapBalances]
      cases h1 : mapBalances prices d1 bs (processBalance prices d1 b p1).2 with
      | error e1 =>
        cases h2 : mapBalances prices d2 bs (processBalance prices d2 b p2).2 with
        | error e2 => simpa [h1, h2] using h
        | ok r2 => simp [h1, h2] at h
      | ok r1 =>
        cases h2 : mapBalances prices d2 bs (processBalance prices d2 b p2).2 with
        | error e2 => simp [h1, h2] at h
        | ok r2 =>
          simp only [h1, h2] at h
          simp only [List.map_cons, List.cons.injEq]
          exact ⟨processBalance_fixedPart prices d1 d2 b p1 p2, h⟩

/-- The sort commutes with dropping the colors. -/
theorem sortByValue_fixedPart (l : List Asset) :
    (sortByValue l).map Asset.fixedPart =
      (l.map Asset.fixedPart).mergeSort
        (fun x y => !(F64.gt (F64.sub y.2.2.1 x.2.2.1) F64.zero)) := by
  unfold sortByValue
  exact List.map_mergeSort (fun a _ b _ => rfl)

/-- C8, amended: two calls with the same snapshot and price map both throw the same
error or return lists that agree in length, order and every field except the color of
coins outside the fixed lookup, whatever `Math.random()` returns; the color of a coin of
the lookup is the color the lookup gives. -/
theorem processPortfolio_deterministic (accountData : Option AccountData)
    (prices : Option PriceMap) (d1 d2 : Nat → F64) (p1 p2 : Nat) :
    (match processPortfolio accountData prices d1 p1,
        processPortfolio accountData prices d2 p2 with
      | .ok (o1, _), .ok (o2, _) => o1.map Asset.fixedPart = o2.map Asset.fixedPart
      | .error e1, .error e2 => e1 = e2
      | _, _ => False) ∧
    ∀ out q a c, processPortfolio accountData prices d1 p1 = .ok (out, q) → a ∈ out →
      coinColors a.coin = some c → a.color = c := by
  cases accountData with
  | none => exact ⟨by simp [processPortfolio], by
      intro out q a c hout ha
      simp only [processPortfolio, Except.ok.injEq, Prod.mk.injEq] at hout
      rw [← hout.1] at ha; simp at ha⟩
  | some acc =>
    obtain ⟨bal, m⟩ := acc
    cases bal with
    | none => exact ⟨by simp [processPortfolio], by
        intro out q a c hout ha
        simp only [processPortfolio, Except.ok.injEq, Prod.mk.injEq] at hout
        rw [← hout.1] at ha; simp at ha⟩
    | some balances =>
      cases prices with
      | none => exact ⟨by simp [processPortfolio], by
          intro out q a c hout ha
          simp only [processPortfolio, Except.ok.injEq, Prod.mk.injEq] at hout
          rw [← hout.1] at ha; simp at ha⟩
      | some priceMap =>
        constructor
        · have h := mapBalances_fixedPart priceMap d1 d2 balances p1 p2
          simp only [processPortfolio]
          cases h1 : mapBalances priceMap d1 balances p1 with
          | error e1 =>
            cases h2 : mapBalances priceMap d2 balances p2 with
            | error e2 => simpa [h1, h2] using h
            | ok r2 => simp [h1, h2] at h
          | ok r1 =>
            cases h2 : mapBalances priceMap d2 balances p2 with
            | error e2 => simp [h1, h2] at h
            | ok r2 =>
              simp only [h1, h2] at h
              simp only [sortByValue_fixedPart]
              have hf : ∀ s : List (Option Asset), (s.filterMap id).map Asset.fixedPart =
                  (s.map (Option.map Asset.fixedPart)).filterMap id := by
                intro s
                induction s with
                | nil => rfl
                | cons x s ih => cases x <;> simp [List.filterMap_cons, ih]
              rw [hf, hf, h]
        · intro out q a c hout ha hc
          simp only [processPortfolio] at hout
          cases h1 : mapBalances priceMap d1 balances p1 with
          | error e1 => simp [h1] at hout
          | ok r1 =>
            simp only [h1, Except.ok.injEq, Prod.mk.injEq] at hout
            rw [← hout.1] at ha
            unfold sortByValue at ha
            rw [List.mem_mergeSort, List.mem_filterMap] at ha
            obtain ⟨slot, hslot, hid⟩ := ha
            have key : ∀ (bs : List (Option Balance)) (p : Nat)
                (r : List (Option Asset) × Nat),
                mapBalances priceMap d1 bs p = .ok r → some a ∈ r.1 →
                ∃ b n, (processBalance priceMap d1 b n).1 = some a := by
              intro bs
              induction bs with
              | nil =>
                intro p r hr hm
                simp only [mapBalances, Except.ok.injEq] at hr
                rw [← hr] at hm
                simp at hm
              | cons x bs ih =>
                intro p r hr hm
                cases x with
                | none => simp [mapBalances] at hr
                | some b =>
                  simp only [mapBalances] at hr
                  cases h3 : mapBalances priceMap d1 bs (processBalance priceMap d1 b p).2 with
                  | error e => simp [h3] at hr
                  | ok r3 =>
                    simp only [h3, Except.ok.injEq] at hr
                    rw [← hr] at hm
                    rcases List.mem_cons.mp hm with hm | hm
                    · exact ⟨b, p, hm.symm⟩
                    · exact ih _ r3 h3 hm
            have hs : slot = some a := by simpa using hid
            obtain ⟨b, n, hb⟩ := key balances p1 r1 h1 (hs ▸ hslot)
            obtain ⟨_, _, _, hcoin, _, hcol⟩ := processBalance_eq_some priceMap d1 b n hb
            exact hcol c (hcoin ▸ hc)

/-- C8, amended, at a BTC holding: its color is the color of the lookup. -/
theorem processPortfolio_deterministic_witness :
    (Asset.mk "BTC" (F64.ofNat 1) (F64.ofNat 2) (.text "#F7931A") "BTCUSDT").color =
      .text "#F7931A" :=
  (processPortfolio_deterministic (some ⟨some [some ⟨"BTC", "1", "0"⟩], none⟩)
    (some [("BTCUSDT", F64.ofNat 2)]) (fun _ => F64.zero) (fun _ => F64.one) 0 0).2
    [⟨"BTC", F64.ofNat 1, F64.ofNat 2, .text "#F7931A", "BTCUSDT"⟩] 0
    ⟨"BTC", F64.ofNat 1, F64.ofNat 2, .text "#F7931A", "BTCUSDT"⟩ (.text "#F7931A")
    (by decide!) (by simp) (by decide)

/-! ## Price lookups -/

theorem promiseAll_ok_iff {α : Type} (l : List (Except JSError α)) (vs : List α) :
    promiseAll l = .ok vs ↔ l = vs.map Except.ok := by
  induction l generalizing vs with
  | nil => cases vs <;> simp [promiseAll]
  | cons x l ih =>
    cases x with
    | error e => cases vs <;> simp [promiseAll]
    | ok a =>
      simp only [promiseAll]
      cases h : promiseAll l with
      | error e =>
        cases vs with
        | nil => simp
        | cons v vs =>
          simp only [List.map_cons, List.cons.injEq, Except.ok.injEq, false_iff, not_and,
            reduceCtorEq]
          intro _ hl
          rw [(ih vs).mpr hl] at h
          cases h
      | ok as =>
        have hl := (ih as).mp h
        cases vs with
        | nil => simp
        | cons v vs =>
          simp only [Except.ok.injEq, List.cons.injEq, List.map_cons]
          constructor
          · rintro ⟨h1, h2⟩
            exact ⟨h1, h2 ▸ hl⟩
          · rintro ⟨h1, h2⟩
            refine ⟨h1, ?_⟩
            have := (ih vs).mpr h2
            rw [h] at this
            simpa using this

/-- `Promise.all` rejects as soon as one of the promises rejects. -/
theorem promiseAll_error_of_mem {α : Type} (l : List (Except JSError α)) (e : JSError)
    (h : Except.error e ∈ l) : ∃ e1, promiseAll l = .error e1 := by
  induction l with
  | nil => simp at h
  | cons x l ih =>
    cases x with
    | error e0 => exact ⟨e0, rfl⟩
    | ok a =>
      have hl : Except.error e ∈ l := by simpa using h
      obtain ⟨e1, h1⟩ := ih hl
      exact ⟨e1, by simp [promiseAll, h1]⟩

theorem fetchSymbolPrices_length (transport : PriceTransport) (start : Nat)
    (symbols : List String) :
    (fetchSymbolPrices transport start symbols).length = symbols.length := by
  induction symbols generalizing start with
  | nil => rfl
  | cons x xs ih => simp [fetchSymbolPrices, ih]

/-- The `i`-th promise is the lookup of the `i`-th symbol, request number `start + i`. -/
theorem fetchSymbolPrices_getElem (transport : PriceTransport) (start : Nat)
    (symbols : List String) (i : Nat) (h : i < symbols.length) :
    (fetchSymbolPrices transport start symbols)[i]? =
      some (fetchSymbolPrice transport (start + i) symbols[i]) := by
  induction symbols generalizing start i with
  | nil => simp at h
  | cons x xs ih =>
    cases i with
    | zero => simp [fetchSymbolPrices]
    | succ i =>
      simp only [fetchSymbolPrices, List.getElem?_cons_succ, List.getElem_cons_succ]
      rw [ih (start + 1) i (by simpa using h)]
      congr 2
      omega

/-- A lookup fulfils exactly when the transport answers with a success status and a
body that is valid JSON; its value is the parsed body. -/
theorem fetchSymbolPrice_ok_iff (transport : PriceTransport) (i : Nat) (symbol : String)
    (body : PriceBody) :
    fetchSymbolPrice transport i symbol = .ok body ↔
      ∃ res, transport i (symbolRequest symbol) = .ok res ∧ res.ok = true ∧
        res.json = some body := by
  unfold fetchSymbolPrice
  cases h : transport i (symbolRequest symbol) with
  | error e => simp
  | ok res =>
    cases hok : res.ok with
    | false => simp [hok]
    | true =>
      cases hj : res.json with
      | none => simp [hok, hj]
      | some b => simp [hok, hj]

/-- A lookup that rejects or answers with a non-success status makes its promise
reject. -/
theorem fetchSymbolPrice_error (transport : PriceTransport) (i : Nat) (symbol : String)
    (h : (∃ e, transport i (symbolRequest symbol) = .error e) ∨
      ∃ res, transport i (symbolRequest symbol) = .ok res ∧ res.ok = false) :
    ∃ e, fetchSymbolPrice transport i symbol = .error e := by
  unfold fetchSymbolPrice
  rcases h with ⟨e, h⟩ | ⟨res, h, hok⟩
  · exact ⟨e, by simp [h]⟩
  · exact ⟨_, by simp only [h, hok]; rfl⟩

/-- The reduction of ticker objects binds each symbol to its parsed price, in order. -/
theorem reduceResponses_tickers (ts : List Ticker) (acc : PriceMap) :
    reduceResponses (ts.map PriceBody.ticker) acc = .ok (ts.foldl PriceMap.addTicker acc) := by
  induction ts generalizing acc with
  | nil => rfl
  | cons t ts ih => simp [reduceResponses, ih]

/-- A failing lookup makes `getCurrentPrices` fail. -/
theorem getCurrentPrices_error_of_lookup (transport : PriceTransport) (start : Nat)
    (symbols : List String) (i : Nat) (h : i < symbols.length)
    (hfail : (∃ e, transport (start + i) (symbolRequest symbols[i]) = .error e) ∨
      ∃ res, transport (start + i) (symbolRequest symbols[i]) = .ok res ∧ res.ok = false) :
    ∃ e, getCurrentPrices transport start symbols = .error e := by
  have hlen : symbols.length > 0 := by omega
  obtain ⟨e, he⟩ := fetchSymbolPrice_error transport (start + i) symbols[i] hfail
  have hmem : Except.error e ∈ fetchSymbolPrices transport start symbols := by
    apply List.getElem?_mem (n := i)
    rw [fetchSymbolPrices_getElem transport start symbols i h, he]
  obtain ⟨e1, h1⟩ := promiseAll_error_of_mem _ e hmem
  exact ⟨e1, by simp [getCurrentPrices, hlen, h1]⟩

/-- C11: for a non-empty list of symbols `getCurrentPrices` fails when any one lookup
rejects or answers with a non-success status (no partial map); when it succeeds every
lookup succeeded and the result is the reduction of the parsed bodies; and when every
lookup answers with a ticker object the result binds each response's symbol to its
parsed price. -/
theorem getCurrentPrices_all_or_nothing (transport : PriceTransport) (start : Nat)
    (symbols : List String) (hne : symbols ≠ []) :
    (∀ i (h : i < symbols.length),
      ((∃ e, transport (start + i) (symbolRequest symbols[i]) = .error e) ∨
        ∃ res, transport (start + i) (symbolRequest symbols[i]) = .ok res ∧ res.ok = false) →
      ∃ e, getCurrentPrices transport start symbols = .error e) ∧
    (∀ m, getCurrentPrices transport start symbols = .ok m →
      ∃ bodies : List PriceBody, bodies.length = symbols.length ∧
        (∀ i (h : i < symbols.length), ∃ body res, bodies[i]? = some body ∧
          transport (start + i) (symbolRequest symbols[i]) = .ok res ∧ res.ok = true ∧
          res.json = some body) ∧
        reduceResponses bodies [] = .ok m) ∧
    (∀ ts : List Ticker, ts.length = symbols.length →
      (∀ i (h : i < symbols.length), ∃ t res, ts[i]? = some t ∧
        transport (start + i) (symbolRequest symbols[i]) = .ok res ∧ res.ok = true ∧
        res.json = some (.ticker t)) →
      getCurrentPrices transport start symbols = .ok (ts.foldl PriceMap.addTicker [])) ∧
    (∀ (acc : PriceMap) (symbol price : String), symbol ≠ "__proto__" →
      (acc.addTicker ⟨some symbol, some price⟩).get symbol = some (parseFloat price)) := by
  have hlen : symbols.length > 0 := List.length_pos.mpr hne
  refine ⟨?_, ?_, ?_, ?_⟩
  · intro i h hfail
    exact getCurrentPrices_error_of_lookup transport start symbols i h hfail
  · intro m hm
    simp only [getCurrentPrices, hlen, if_true] at hm
    cases hp : promiseAll (fetchSymbolPrices transport start symbols) with
    | error e => simp [hp] at hm
    | ok bodies =>
      simp only [hp] at hm
      have hl := (promiseAll_ok_iff _ _).mp hp
      have hbl : bodies.length = symbols.length := by
        have := congrArg List.length hl
        simpa [fetchSymbolPrices_length] using this.symm
      refine ⟨bodies, hbl, ?_, hm⟩
      intro i h
      have hi := fetchSymbolPrices_getElem transport start symbols i h
      rw [hl, List.getElem?_map] at hi
      have hb : i < bodies.length := by omega
      rw [List.getElem?_eq_getElem hb] at hi
      simp only [Option.map_some', Option.some.injEq] at hi
      obtain ⟨res, h1, h2, h3⟩ :=
        (fetchSymbolPrice_ok_iff transport (start + i) symbols[i] bodies[i]).mp hi.symm
      exact ⟨bodies[i], res, List.getElem?_eq_getElem hb, h1, h2, h3⟩
  · intro ts htl hall
    have hl : fetchSymbolPrices transport start symbols =
        (ts.map PriceBody.ticker).map Except.ok := by
      apply List.ext_getElem?
      intro i
      by_cases h : i < symbols.length
      · obtain ⟨t, res, ht, h1, h2, h3⟩ := hall i h
        rw [fetchSymbolPrices_getElem transport start symbols i h]
        rw [(fetchSymbolPrice_ok_iff transport (start + i) symbols[i] (.ticker t)).mpr
          ⟨res, h1, h2, h3⟩]
        simp [ht]
      · rw [List.getElem?_eq_none (by simp [fetchSymbolPrices_length]; omega),
          List.getElem?_eq_none (by simp; omega)]
    have hp := (promiseAll_ok_iff _ _).mpr hl
    simp [getCurrentPrices, hlen, hp, reduceResponses_tickers]
  · intro acc symbol price hs
    simp [PriceMap.addTicker, PriceMap.set, hs, PriceMap.get, List.lookup]

/-- C11 at a transport that answers every request with the ticker `BTCUSDT` at `2`. -/
theorem getCurrentPrices_all_or_nothing_witness :
    getCurrentPrices (fun _ _ => .ok ⟨true, 200, "", some (.ticker ⟨some "BTCUSDT", some "2"⟩)⟩)
      0 ["BTCUSDT"] =
    .ok ([⟨some "BTCUSDT", some "2"⟩].foldl PriceMap.addTicker []) :=
  (getCurrentPrices_all_or_nothing
    (fun _ _ => .ok ⟨true, 200, "", some (.ticker ⟨some "BTCUSDT", some "2"⟩)⟩) 0 ["BTCUSDT"]
    (by simp)).2.2.1 [⟨some "BTCUSDT", some "2"⟩] rfl
    (fun i h => ⟨⟨some "BTCUSDT", some "2"⟩, ⟨true, 200, "", some (.ticker ⟨some "BTCUSDT", some "2"⟩)⟩,
      by
        have hi : i = 0 := by simpa using h
        subst hi; rfl,
      rfl, rfl, rfl⟩)

/-- C10: `getTopCoinPrices` never throws — for every behaviour of the transport it
returns a price object — and the object is empty whenever the underlying
`getCurrentPrices` call fails, in particular whenever one of the five lookups rejects or
answers with a non-success status. -/
theorem getTopCoinPrices_never_throws (transport : PriceTransport) (start : Nat) :
    (∃ m, getTopCoinPrices transport start = .ok m) ∧
    (∀ e, getCurrentPrices transport start topCoinSymbols = .error e →
      getTopCoinPrices transport start = .ok []) ∧
    (∀ i (h : i < topCoinSymbols.length),
      ((∃ e, transport (start + i) (symbolRequest topCoinSymbols[i]) = .error e) ∨
        ∃ res, transport (start + i) (symbolRequest topCoinSymbols[i]) = .ok res ∧
          res.ok = false) →
      getTopCoinPrices transport start = .ok []) := by
  refine ⟨?_, ?_, ?_⟩
  · unfold getTopCoinPrices
    cases getCurrentPrices transport start topCoinSymbols with
    | error e => exact ⟨[], rfl⟩
    | ok m => exact ⟨m, rfl⟩
  · intro e he
    simp [getTopCoinPrices, he]
  · intro i h hfail
    obtain ⟨e, he⟩ := getCurrentPrices_error_of_lookup transport start topCoinSymbols i h hfail
    simp [getTopCoinPrices, he]

/-- C10 at a transport that rejects every request. -/
theorem getTopCoinPrices_never_throws_witness :
    getTopCoinPrices (fun _ _ => .error (.typeError "Failed to fetch")) 0 = .ok [] :=
  (getTopCoinPrices_never_throws (fun _ _ => .error (.typeError "Failed to fetch")) 0).2.1
    (.typeError "Failed to fetch") rfl

/-! ## The account call -/

/-- C12, as the claim states it, fails: on a status `500` with an empty body the message
raised by `getAccountInfo` is `Failed to fetch account information (500)`, not
`API Error (500)`. -/
theorem getAccountInfo_message_not_api_error :
    getAccountInfo (fun _ => .ok ⟨false, 500, "", none⟩) 0 ⟨"key", "secret"⟩
        (fun _ _ => .ok "00") =
      .error (.error "Failed to fetch account information (500)") ∧
    getAccountInfo (fun _ => .ok ⟨false, 500, "", none⟩) 0 ⟨"key", "secret"⟩
        (fun _ _ => .ok "00") ≠ .error (.error "API Error (500)") := by
  decide!

/-- C12, amended: on a non-success response with status `s` and body text `b`,
`getAccountInfo` raises the `msg` of the parsed body when the body is JSON with a
non-empty `msg`; `Failed to fetch account information (<s>): <b>` when the body is not
valid JSON and not empty; and `Failed to fetch account information (<s>)` otherwise. -/
theorem getAccountInfo_error_message (transport : AccountTransport) (now : Nat)
    (credentials : Credentials) (sign : Signer) (signature : String)
    (res : Response (Option AccountData))
    (hs : sign (timestampQuery now) credentials.apiSecret = .ok signature)
    (hr : transport (accountRequest (timestampQuery now) signature credentials.apiKey) =
      .ok res)
    (hok : res.ok = false) :
    (∀ obj msg, res.json = some (some obj) → obj.msg = some msg → msg ≠ "" →
      getAccountInfo transport now credentials sign = .error (.error msg)) ∧
    (res.json = none → res.text ≠ "" →
      getAccountInfo transport now credentials sign =
        .error (.error ("Failed to fetch account information (" ++ toString res.status ++ ")"
          ++ ": " ++ res.text))) ∧
    ((res.json = none ∧ res.text = "") ∨ res.json = some none ∨
        (∃ obj, res.json = some (some obj) ∧ (obj.msg = none ∨ obj.msg = some "")) →
      getAccountInfo transport now credentials sign =
        .error (.error ("Failed to fetch account information (" ++ toString res.status ++ ")")))
    := by
  refine ⟨?_, ?_, ?_⟩
  · intro obj msg hj hm hne
    simp [getAccountInfo, hs, hr, hok, errorMessageOf, hj, hm, hne]
  · intro hj ht
    simp [getAccountInfo, hs, hr, hok, errorMessageOf, hj, ht]
  · rintro (⟨hj, ht⟩ | hj | ⟨obj, hj, hm | hm⟩)
    · simp [getAccountInfo, hs, hr, hok, errorMessageOf, hj, ht]
    · simp [getAccountInfo, hs, hr, hok, errorMessageOf, hj]
    · simp [getAccountInfo, hs, hr, hok, errorMessageOf, hj, hm]
    · simp [getAccountInfo, hs, hr, hok, errorMessageOf, hj, hm]

/-- C12, amended, at a status `401` whose body is the JSON object with `msg`
`Invalid API-key`. -/
theorem getAccountInfo_error_message_witness :
    getAccountInfo
        (fun _ => .ok ⟨false, 401, "\x7b\"msg\":\"Invalid API-key\"\x7d",
          some (some ⟨none, some "Invalid API-key"⟩)⟩)
        0 ⟨"key", "secret"⟩ (fun _ _ => .ok "00") =
      .error (.error "Invalid API-key") :=
  (getAccountInfo_error_message
    (fun _ => .ok ⟨false, 401, "\x7b\"msg\":\"Invalid API-key\"\x7d",
      some (some ⟨none, some "Invalid API-key"⟩)⟩)
    0 ⟨"key", "secret"⟩ (fun _ _ => .ok "00") "00"
    ⟨false, 401, "\x7b\"msg\":\"Invalid API-key\"\x7d", some (some ⟨none, some "Invalid API-key"⟩)⟩
    rfl rfl rfl).1 ⟨none, some "Invalid API-key"⟩ "Invalid API-key" rfl rfl (by decide)

/-- C13: with `S` the signer's output on `timestamp=<T>` keyed by the secret, the
account call is a GET of `<base>/api/v3/account?timestamp=<T>&signature=<S>` with the
API key in the `X-MBX-APIKEY` header: `login` issues exactly that request,
`getAccountInfo` depends on the transport only through its answer to that request, and
the URL is the same for any other API key and any other secret with the same signature. -/
theorem account_request_shape (now : Nat) (sign : Signer) (apiKey apiSecret signature : String)
    (hs : sign ("timestamp=" ++ toString now) apiSecret = .ok signature) :
    (∀ (t : AccountTransport) (st : AuthState) (remember : Bool),
      (login t now sign st apiKey apiSecret remember).fetched =
        [{ method := "GET"
           url := BINANCE_API_URL ++ "/api/v3/account?" ++ ("timestamp=" ++ toString now) ++
             "&signature=" ++ signature
           headers := [("X-MBX-APIKEY", apiKey)] }]) ∧
    (∀ t1 t2 : AccountTransport,
      t1 { method := "GET"
           url := BINANCE_API_URL ++ "/api/v3/account?" ++ ("timestamp=" ++ toString now) ++
             "&signature=" ++ signature
           headers := [("X-MBX-APIKEY", apiKey)] } =
      t2 { method := "GET"
           url := BINANCE_API_URL ++ "/api/v3/account?" ++ ("timestamp=" ++ toString now) ++
             "&signature=" ++ signature
           headers := [("X-MBX-APIKEY", apiKey)] } →
      getAccountInfo t1 now ⟨apiKey, apiSecret⟩ sign =
        getAccountInfo t2 now ⟨apiKey, apiSecret⟩ sign) ∧
    (∀ (t : AccountTransport) (st : AuthState) (remember : Bool) (apiKey2 apiSecret2 : String),
      sign ("timestamp=" ++ toString now) apiSecret2 = .ok signature →
      (login t now sign st apiKey2 apiSecret2 remember).fetched.map Request.url =
        (login t now sign st apiKey apiSecret remember).fetched.map Request.url) := by
  have hs1 : sign (timestampQuery now) apiSecret = .ok signature := hs
  have hf : ∀ (t : AccountTransport) (st : AuthState) (remember : Bool) (k s : String),
      sign (timestampQuery now) s = .ok signature →
      (login t now sign st k s remember).fetched =
        [accountRequest (timestampQuery now) signature k] := by
    intro t st remember k s h
    simp only [login, h]
    cases ht : t (accountRequest (timestampQuery now) signature k) with
    | error e => rfl
    | ok res => cases hok : res.ok <;> simp [hok]
  refine ⟨?_, ?_, ?_⟩
  · intro t st remember
    rw [hf t st remember apiKey apiSecret hs1]
    rfl
  · intro t1 t2 h
    have h2 : t1 (accountRequest (timestampQuery now) signature apiKey) =
        t2 (accountRequest (timestampQuery now) signature apiKey) := h
    simp only [getAccountInfo, hs1, h2]
  · intro t st remember apiKey2 apiSecret2 h2
    rw [hf t st remember apiKey apiSecret hs1, hf t st remember apiKey2 apiSecret2 h2]
    rfl

/-- C13 at the time `1700000000000` with a signer that returns `00`. -/
theorem account_request_shape_witness :
    (login (fun _ => .ok ⟨true, 200, "", none⟩) 1700000000000 (fun _ _ => .ok "00")
        ⟨false, ⟨"", ""⟩, []⟩ "key" "secret" false).fetched =
      [{ method := "GET"
         url := BINANCE_API_URL ++ "/api/v3/account?" ++
           ("timestamp=" ++ toString 1700000000000) ++ "&signature=" ++ "00"
         headers := [("X-MBX-APIKEY", "key")] }] :=
  (account_request_shape 1700000000000 (fun _ _ => .ok "00") "key" "secret" "00" rfl).1
    (fun _ => .ok ⟨true, 200, "", none⟩) ⟨false, ⟨"", ""⟩, []⟩ false

/-! ## The hex encoding of the signature -/

/-- The two characters of a byte: its high and its low hexadecimal digit. -/
theorem byteToHex_data : ∀ b, b < 256 →
    (byteToHex b).data = [Nat.digitChar (b / 16), Nat.digitChar (b % 16)] := by
  decide!

theorem digitChar_hex : ∀ x, x < 16 → Nat.digitChar x ∈ "0123456789abcdef".data := by
  decide!

theorem digitChar_injective : ∀ x, x < 16 → ∀ y, y < 16 →
    Nat.digitChar x = Nat.digitChar y → x = y := by
  decide!

theorem hexEncode_cons (b : Nat) (bs : List Nat) :
    (hexEncode (b :: bs)).data = (byteToHex b).data ++ (hexEncode bs).data := by
  simp [hexEncode, String.data_join]

theorem hexEncode_nil : (hexEncode []).data = [] := by
  simp [hexEncode, String.data_join]

/-- The characters of the encoding: two per byte, in order. -/
theorem hexEncode_data (bytes : List Nat) (hb : ∀ b ∈ bytes, b < 256) :
    (hexEncode bytes).data =
      bytes.flatMap (fun b => [Nat.digitChar (b / 16), Nat.digitChar (b % 16)]) := by
  induction bytes with
  | nil => simp [hexEncode_nil]
  | cons b bs ih =>
    rw [hexEncode_cons, byteToHex_data b (hb b (List.mem_cons_self _ _)),
      ih (fun x hx => hb x (List.mem_cons_of_mem _ hx))]
    simp [List.flatMap_cons]

/-- C14: the digest is encoded as lowercase hex, two characters per byte and nothing
else: for bytes (numbers below `256`) the string has length `2n`, holds only characters
of `0123456789abcdef`, its `i`-th pair is the high and the low hexadecimal digit of the
`i`-th byte, and distinct byte sequences give distinct strings; the string
`createSignature` returns is this encoding of the digest. -/
theorem hexEncode_spec (bytes : List Nat) (hb : ∀ b ∈ bytes, b < 256) :
    (hexEncode bytes).length = 2 * bytes.length ∧
    (∀ c ∈ (hexEncode bytes).data, c ∈ "0123456789abcdef".data) ∧
    (∀ i (h : i < bytes.length), ((hexEncode bytes).data.drop (2 * i)).take 2 =
      [Nat.digitChar (bytes[i] / 16), Nat.digitChar (bytes[i] % 16)]) ∧
    (∀ bytes2 : List Nat, (∀ b ∈ bytes2, b < 256) → hexEncode bytes = hexEncode bytes2 →
      bytes = bytes2) ∧
    (∀ (mac : Mac) (queryString secret : String),
      mac (utf8Encode secret) (utf8Encode queryString) = .ok bytes →
      createSignature mac queryString secret = .ok (hexEncode bytes)) := by
  refine ⟨?_, ?_, ?_, ?_, ?_⟩
  · rw [String.length, hexEncode_data bytes hb]
    clear hb
    induction bytes with
    | nil => rfl
    | cons b bs ih => simp [List.flatMap_cons, ih]; omega
  · intro c hc
    rw [hexEncode_data bytes hb, List.mem_flatMap] at hc
    obtain ⟨b, hbm, hc⟩ := hc
    have h16 : b / 16 < 16 := by have := hb b hbm; omega
    have h16m : b % 16 < 16 := Nat.mod_lt _ (by decide)
    simp only [List.mem_cons, List.mem_singleton, List.not_mem_nil, or_false] at hc
    rcases hc with hc | hc
    · rw [hc]; exact digitChar_hex _ h16
    · rw [hc]; exact digitChar_hex _ h16m
  · rw [hexEncode_data bytes hb]
    clear hb
    induction bytes with
    | nil => intro i h; simp at h
    | cons b bs ih =>
      intro i h
      cases i with
      | zero => simp [List.flatMap_cons]
      | succ i =>
        have hd : 2 * (i + 1) = 2 * i + 2 := by omega
        simp only [List.flatMap_cons, hd, List.getElem_cons_succ]
        have := ih i (by simpa using h)
        simpa [List.drop_append] using this
  · intro bytes2 hb2 heq
    have hd := congrArg String.data heq
    rw [hexEncode_data bytes hb, hexEncode_data bytes2 hb2] at hd
    clear heq
    induction bytes generalizing bytes2 with
    | nil =>
      cases bytes2 with
      | nil => rfl
      | cons c cs => simp [List.flatMap_cons] at hd
    | cons b bs ih =>
      cases bytes2 with
      | nil => simp [List.flatMap_cons] at hd
      | cons c cs =>
        simp only [List.flatMap_cons, List.cons_append, List.nil_append, List.cons.injEq] at hd
        obtain ⟨h1, h2, h3⟩ := hd
        have hb1 := hb b (List.mem_cons_self _ _)
        have hc1 := hb2 c (List.mem_cons_self _ _)
        have e1 := digitChar_injective (b / 16) (by omega) (c / 16) (by omega) h1
        have e2 := digitChar_injective (b % 16) (Nat.mod_lt _ (by decide)) (c % 16)
          (Nat.mod_lt _ (by decide)) h2
        have hbc : b = c := by omega
        rw [hbc, ih (fun x hx => hb x (List.mem_cons_of_mem _ hx)) cs
          (fun x hx => hb2 x (List.mem_cons_of_mem _ hx)) h3]
  · intro mac queryString secret hm
    simp [createSignature, hm]

/-- C14 at the three bytes `0`, `10`, `255`, encoded as `000aff`. -/
theorem hexEncode_spec_witness :
    (hexEncode [0, 10, 255]).length = 2 * [0, 10, 255].length ∧ hexEncode [0, 10, 255] = "000aff" :=
  ⟨(hexEncode_spec [0, 10, 255] (by decide)).1, by decide!⟩

/-! ## Login -/

/-- C15: a failed `login` leaves the session as it was: whenever it throws, the state
(authenticated flag, credentials and stored keys) is the state before the call, whatever
`remember` is; a failing signer makes it throw the signer's error, and a non-success
response makes it throw the account-call message (the `msg` of the body, else
`API Error (<status>)`, with the raw text appended when the body is not JSON). -/
theorem login_failure_keeps_state (transport : AccountTransport) (now : Nat) (sign : Signer)
    (st : AuthState) (apiKey apiSecret : String) (remember : Bool) :
    (∀ e, (login transport now sign st apiKey apiSecret remember).result = .error e →
      (login transport now sign st apiKey apiSecret remember).state = st) ∧
    (∀ e, sign (timestampQuery now) apiSecret = .error e →
      (login transport now sign st apiKey apiSecret remember).result = .error e ∧
      (login transport now sign st apiKey apiSecret remember).state = st ∧
      (login transport now sign st apiKey apiSecret remember).fetched = []) ∧
    (∀ signature res, sign (timestampQuery now) apiSecret = .ok signature →
      transport (accountRequest (timestampQuery now) signature apiKey) = .ok res →
      res.ok = false →
      (login transport now sign st apiKey apiSecret remember).result =
        .error (.error (errorMessageOf ("API Error (" ++ toString res.status ++ ")") res)) ∧
      (login transport now sign st apiKey apiSecret remember).state = st) := by
  refine ⟨?_, ?_, ?_⟩
  · intro e he
    unfold login at he ⊢
    simp only at he ⊢
    cases hs : sign (timestampQuery now) apiSecret with
    | error e1 => rfl
    | ok signature =>
      simp only [hs] at he ⊢
      cases ht : transport (accountRequest (timestampQuery now) signature apiKey) with
      | error e2 => rfl
      | ok res =>
        simp only [ht] at he ⊢
        cases hok : res.ok with
        | false => simp [hok]
        | true => simp [hok] at he
  · intro e hs
    simp [login, hs]
  · intro signature res hs ht hok
    simp [login, hs, ht, hok]

/-- C15 at a transport that answers `401` with an empty body. -/
theorem login_failure_keeps_state_witness :
    (login (fun _ => .ok ⟨false, 401, "", none⟩) 0 (fun _ _ => .ok "00")
      ⟨false, ⟨"", ""⟩, []⟩ "key" "secret" true).state = ⟨false, ⟨"", ""⟩, []⟩ :=
  (login_failure_keeps_state (fun _ => .ok ⟨false, 401, "", none⟩) 0 (fun _ _ => .ok "00")
    ⟨false, ⟨"", ""⟩, []⟩ "key" "secret" true).1 (.error "API Error (401)") (by decide!)

/-- C17: submitting the form with an API key or a secret that is empty after trimming
shows the validation error and calls neither the signer nor `fetch`: `login` is not
run, and the session state is unchanged. -/
theorem handleSubmit_validation (transport : AccountTransport) (now : Nat) (sign : Signer)
    (st : AuthState) (apiKey apiSecret : String) (remember : Bool)
    (h : jsTrim apiKey = "" ∨ jsTrim apiSecret = "") :
    handleSubmit transport now sign st apiKey apiSecret remember =
      ⟨"API Key and Secret are required", none, none⟩ ∧
    (handleSubmit transport now sign st apiKey apiSecret remember).loginRun = none ∧
    (handleSubmit transport now sign st apiKey apiSecret remember).authState st = st := by
  have hrun : handleSubmit transport now sign st apiKey apiSecret remember =
      ⟨"API Key and Secret are required", none, none⟩ := by
    unfold handleSubmit
    rw [if_pos h]
  rw [hrun]
  exact ⟨rfl, rfl, rfl⟩

/-- C17 at an empty API key, and at a secret made of blanks. -/
theorem handleSubmit_validation_witness :
    handleSubmit (fun _ => .ok ⟨true, 200, "", none⟩) 0 (fun _ _ => .ok "00")
        ⟨false, ⟨"", ""⟩, []⟩ "" "secret" false =
      ⟨"API Key and Secret are required", none, none⟩ ∧
    (handleSubmit (fun _ => .ok ⟨true, 200, "", none⟩) 0 (fun _ _ => .ok "00")
        ⟨false, ⟨"", ""⟩, []⟩ "key" " \t " false).loginRun = none :=
  ⟨(handleSubmit_validation (fun _ => .ok ⟨true, 200, "", none⟩) 0 (fun _ _ => .ok "00")
      ⟨false, ⟨"", ""⟩, []⟩ "" "secret" false (Or.inl (by decide!))).1,
   (handleSubmit_validation (fun _ => .ok ⟨true, 200, "", none⟩) 0 (fun _ _ => .ok "00")
      ⟨false, ⟨"", ""⟩, []⟩ "key" " \t " false (Or.inr (by decide!))).2.1⟩

/-! ## Refresh -/

/-- C16, as the claim states it, fails: a refresh whose account fetch fails (status
`401`) replaces the published portfolio by the empty one. -/
theorem loadData_failure_clears_portfolio :
    (loadData (fun _ _ => .error (.typeError "Failed to fetch"))
        (fun _ => .ok ⟨false, 401, "", none⟩) 0 (fun _ _ => .ok "00") (fun _ => F64.zero) 0
        ⟨"key", "secret"⟩
        ⟨false, false, "",
          ⟨[⟨"USDT", F64.ofNat 50, F64.ofNat 50, .text "#26A17B", "Direct"⟩], some (F64.ofNat 50)⟩,
          [], some 1⟩ true).1.portfolio = ⟨[], none⟩ ∧
    (loadData (fun _ _ => .error (.typeError "Failed to fetch"))
        (fun _ => .ok ⟨false, 401, "", none⟩) 0 (fun _ _ => .ok "00") (fun _ => F64.zero) 0
        ⟨"key", "secret"⟩
        ⟨false, false, "",
          ⟨[⟨"USDT", F64.ofNat 50, F64.ofNat 50, .text "#26A17B", "Direct"⟩], some (F64.ofNat 50)⟩,
          [], some 1⟩ true).1.portfolio ≠
      ⟨[⟨"USDT", F64.ofNat 50, F64.ofNat 50, .text "#26A17B", "Direct"⟩], some (F64.ofNat 50)⟩ := by
  decide!

/-- C16, amended: when credentials are present and the account fetch fails with error
`e`, the refresh sets the error text `Failed to load account data: <message of e>` and
publishes the empty portfolio `{ assets: [] }`; it ends with `loading` and `refreshing`
off and consumes no random draw. -/
theorem loadData_account_failure (priceTransport : PriceTransport)
    (accountTransport : AccountTransport) (now : Nat) (sign : Signer) (draws : Nat → F64)
    (pos : Nat) (credentials : Credentials) (st : DashboardState) (isRefreshing : Bool)
    (e : JSError) (hk : credentials.apiKey ≠ "") (hsec : credentials.apiSecret ≠ "")
    (he : getAccountInfo accountTransport now credentials sign = .error e) :
    (loadData priceTransport accountTransport now sign draws pos credentials st
        isRefreshing).1.portfolio = ⟨[], none⟩ ∧
    (loadData priceTransport accountTransport now sign draws pos credentials st
        isRefreshing).1.error = "Failed to load account data: " ++ e.message ∧
    (loadData priceTransport accountTransport now sign draws pos credentials st
        isRefreshing).1.loading = false ∧
    (loadData priceTransport accountTransport now sign draws pos credentials st
        isRefreshing).1.refreshing = false ∧
    (loadData priceTransport accountTransport now sign draws pos credentials st
        isRefreshing).2 = pos := by
  simp [loadData, loadAccount, hk, hsec, he]

/-- C16, amended, at a transport that answers the account call with `401`. -/
theorem loadData_account_failure_witness :
    (loadData (fun _ _ => .error (.typeError "Failed to fetch"))
        (fun _ => .ok ⟨false, 401, "", none⟩) 0 (fun _ _ => .ok "00") (fun _ => F64.zero) 0
        ⟨"key", "secret"⟩ DashboardState.initial true).1.portfolio = ⟨[], none⟩ :=
  (loadData_account_failure (fun _ _ => .error (.typeError "Failed to fetch"))
    (fun _ => .ok ⟨false, 401, "", none⟩) 0 (fun _ _ => .ok "00") (fun _ => F64.zero) 0
    ⟨"key", "secret"⟩ DashboardState.initial true
    (.error "Failed to fetch account information (401)") (by decide) (by decide)
    (by decide!)).1

/-- C18, the code at a failing input: on the first refresh, the five top-coin lookups
answer `BTCUSDT` at `60000`, the full price list fails and the account holds `0.01` BTC.
The top-coin map of this refresh values the holding at `600`, but the refresh publishes
no asset: the fallback is the `topPrices` of the closure, still empty. -/
theorem loadData_fallback_is_stale :
    getTopCoinPrices
        (fun i _ => if i < 5 then
            .ok ⟨true, 200, "", some (.ticker ⟨some "BTCUSDT", some "60000"⟩)⟩
          else .error (.typeError "Failed to fetch")) 0 =
      .ok ([⟨some "BTCUSDT", some "60000"⟩, ⟨some "BTCUSDT", some "60000"⟩,
        ⟨some "BTCUSDT", some "60000"⟩, ⟨some "BTCUSDT", some "60000"⟩,
        ⟨some "BTCUSDT", some "60000"⟩].foldl PriceMap.addTicker []) ∧
    processPortfolio (some ⟨some [some ⟨"BTC", "0.01", "0"⟩], none⟩)
        (some ([⟨some "BTCUSDT", some "60000"⟩, ⟨some "BTCUSDT", some "60000"⟩,
          ⟨some "BTCUSDT", some "60000"⟩, ⟨some "BTCUSDT", some "60000"⟩,
          ⟨some "BTCUSDT", some "60000"⟩].foldl PriceMap.addTicker []))
        (fun _ => F64.zero) 0 =
      .ok ([⟨"BTC", parseFloat "0.01", F64.ofNat 600, .text "#F7931A", "BTCUSDT"⟩], 0) ∧
    (loadData
        (fun i _ => if i < 5 then
            .ok ⟨true, 200, "", some (.ticker ⟨some "BTCUSDT", some "60000"⟩)⟩
          else .error (.typeError "Failed to fetch"))
        (fun _ => .ok ⟨true, 200, "", some (some ⟨some [some ⟨"BTC", "0.01", "0"⟩], none⟩)⟩)
        0 (fun _ _ => .ok "00") (fun _ => F64.zero) 0 ⟨"key", "secret"⟩
        DashboardState.initial false).1.portfolio = ⟨[], some F64.zero⟩ := by
  decide!

/-! ## The pie chart -/

theorem foldl_pieData (l : List Asset) (init : F64) :
    (pieData l).foldl (fun sum item => F64.add sum item.value) init =
      l.foldl (fun sum a => F64.add sum a.value) init := by
  induction l generalizing init with
  | nil => rfl
  | cons a l ih => simp only [pieData, List.map_cons, List.foldl_cons] at ih ⊢; exact ih _

/-- C19, as the claim states it, fails: for six holdings of USDT the values of the chart
do not sum to the portfolio total, neither as the floating-point sum the dashboard
computes nor as an exact sum, because the `Others` value is a rounded sum. -/
theorem chartData_sum_differs :
    ∃ assets, processPortfolio
        (some ⟨some [some ⟨"USDT", "4208.88", "0"⟩, some ⟨"USDT", "3365.89", "0"⟩,
          some ⟨"USDT", "1277.21", "0"⟩, some ⟨"USDT", "417.09", "0"⟩,
          some ⟨"USDT", "84.44", "0"⟩, some ⟨"USDT", "73.79", "0"⟩], none⟩)
        (some []) (fun _ => F64.zero) 0 = .ok (assets, 0) ∧
      assets.length = 6 ∧
      floatSum ((chartData assets true).map ChartEntry.value) ≠ totalValue assets ∧
      exactSum ((chartData assets true).map ChartEntry.value) ≠
        exactSum (assets.map Asset.value) := by
  refine ⟨[⟨"USDT", parseFloat "4208.88", parseFloat "4208.88", .text "#26A17B", "Direct"⟩,
    ⟨"USDT", parseFloat "3365.89", parseFloat "3365.89", .text "#26A17B", "Direct"⟩,
    ⟨"USDT", parseFloat "1277.21", parseFloat "1277.21", .text "#26A17B", "Direct"⟩,
    ⟨"USDT", parseFloat "417.09", parseFloat "417.09", .text "#26A17B", "Direct"⟩,
    ⟨"USDT", parseFloat "84.44", parseFloat "84.44", .text "#26A17B", "Direct"⟩,
    ⟨"USDT", parseFloat "73.79", parseFloat "73.79", .text "#26A17B", "Direct"⟩], ?_⟩
  decide!

/-- C19, amended: for more than `5` assets the chart data is the first `4` assets
followed by one `Others` entry whose value is the left-to-right floating-point sum of
the values of the remaining assets, and, the list being sorted by value in descending
order, every asset grouped into `Others` has a value no greater than that of any asset
shown; for `5` assets or fewer the chart data is the asset list, one entry per asset. -/
theorem chartData_spec (assets : List Asset) (darkMode : Bool) :
    (5 < assets.length →
      chartData assets darkMode =
        pieData (assets.take 4) ++
          [⟨"Others", (assets.drop 4).foldl (fun sum a => F64.add sum a.value) F64.zero,
            .text (if darkMode then "#6B7280" else "#9CA3AF")⟩] ∧
      (chartData assets darkMode).length = 5) ∧
    (assets.Pairwise (fun a b => F64.ge a.value b.value = true) →
      ∀ a ∈ assets.take 4, ∀ b ∈ assets.drop 4, F64.ge a.value b.value = true) ∧
    (assets.length ≤ 5 →
      chartData assets darkMode = pieData assets ∧
      (chartData assets darkMode).length = assets.length) := by
  refine ⟨?_, ?_, ?_⟩
  · intro h
    have hl : (pieData assets).length > 5 := by simpa [pieData] using h
    have hc : chartData assets darkMode =
        pieData (assets.take 4) ++
          [⟨"Others", (assets.drop 4).foldl (fun sum a => F64.add sum a.value) F64.zero,
            .text (if darkMode then "#6B7280" else "#9CA3AF")⟩] := by
      unfold chartData
      rw [if_pos hl]
      have hd : (pieData assets).drop 4 = pieData (assets.drop 4) := by
        simp [pieData, List.map_drop]
      have ht : (pieData assets).take 4 = pieData (assets.take 4) := by
        simp [pieData, List.map_take]
      rw [hd, ht, foldl_pieData]
    refine ⟨hc, ?_⟩
    rw [hc]
    simp [pieData]
    omega
  · intro hp a ha b hb
    have hsplit : assets = assets.take 4 ++ assets.drop 4 := (List.take_append_drop 4 assets).symm
    rw [hsplit, List.pairwise_append] at hp
    exact hp.2.2 a ha b hb
  · intro h
    have hl : ¬ (pieData assets).length > 5 := by simpa [pieData] using h
    have hc : chartData assets darkMode = pieData assets := by
      unfold chartData
      rw [if_neg hl]
    exact ⟨hc, by rw [hc]; simp [pieData]⟩

/-- C19, amended, at the output of scenario 1 (two assets). -/
theorem chartData_spec_witness :
    chartData [⟨"BTC", parseFloat "0.01", F64.ofNat 600, .text "#F7931A", "BTCUSDT"⟩,
        ⟨"USDT", F64.ofNat 50, F64.ofNat 50, .text "#26A17B", "Direct"⟩] true =
      pieData [⟨"BTC", parseFloat "0.01", F64.ofNat 600, .text "#F7931A", "BTCUSDT"⟩,
        ⟨"USDT", F64.ofNat 50, F64.ofNat 50, .text "#26A17B", "Direct"⟩] :=
  ((chartData_spec [⟨"BTC", parseFloat "0.01", F64.ofNat 600, .text "#F7931A", "BTCUSDT"⟩,
      ⟨"USDT", F64.ofNat 50, F64.ofNat 50, .text "#26A17B", "Direct"⟩] true).2.2
    (by decide)).1

/-! ## Colors -/

/-- C20, the code at a failing input: when `Math.random()` returns `0.01` the color of a
coin outside the fixed lookup is `#28f5c`, a `#` followed by five hexadecimal digits. -/
theorem randomColor_short :
    randomColor (parseFloat "0.01") = "#28f5c" ∧
    processPortfolio (some ⟨some [some ⟨"DOGE", "10", "0"⟩], none⟩)
        (some [("DOGEUSDT", F64.ofNat 1)]) (fun _ => parseFloat "0.01") 0 =
      .ok ([⟨"DOGE", F64.ofNat 10, F64.ofNat 10, .text "#28f5c", "DOGEUSDT"⟩], 1) ∧
    "#28f5c".length = 6 := by
  decide!

end BinanceTracker
